import Mathlib

/-!
Verification development for the `suitcase.nano_pybridge` streaming
document-to-HDF5 serialization engine.

The Python source (`src/suitcase/nano_pybridge/__init__.py`) is embedded
shallowly: python dicts become insertion-ordered association lists,
numpy row batches become lists of `Row` values carrying an explicit
trailing shape, HDF5 groups become records of datasets, exceptions become
`Except String`.  Timestamps are modelled as integers (the code only adds
and subtracts them).  External collaborators that no claim touches
(`h5py` chunking, ISO-8601 formatting, the `start` document's metadata
tree, plot/fit export, the NeXus soft-link projector) are not modelled.
-/

/-! ## Association lists (model of python `dict`, insertion ordered) -/

def alookup {β : Type} (k : String) : List (String × β) → Option β
  | [] => none
  | (k', v) :: r => if k' = k then some v else alookup k r

def aset {β : Type} (k : String) (v : β) : List (String × β) → List (String × β)
  | [] => [(k, v)]
  | (k', v') :: r => if k' = k then (k', v) :: r else (k', v') :: aset k v r

def amod {β : Type} (k : String) (f : β → β) : List (String × β) → List (String × β)
  | [] => []
  | (k', v') :: r => if k' = k then (k', f v') :: r else (k', v') :: amod k f r

/-! ## String helpers (models of the python string operations used) -/

/-- Model of python `str.endswith`. -/
def strEndsWith (s pat : String) : Bool :=
  List.isSuffixOf pat.data s.data

def isInfixChars (pat : List Char) : List Char → Bool
  | [] => pat.isEmpty
  | c :: rest => List.isPrefixOf pat (c :: rest) || isInfixChars pat rest

/-- Model of the python `in` substring test. -/
def strContains (s pat : String) : Bool :=
  isInfixChars pat.data s.data

/-- Model of python `str.replace` (replaces every occurrence, left to
right).  The fuel argument only bounds the recursion; `l.length` steps
always suffice because every step consumes at least one character. -/
def replaceCharsAux (pat rep : List Char) : Nat → List Char → List Char
  | _, [] => []
  | 0, l => l
  | fuel + 1, c :: rest =>
    if pat ≠ [] ∧ List.isPrefixOf pat (c :: rest) then
      rep ++ replaceCharsAux pat rep fuel ((c :: rest).drop pat.length)
    else
      c :: replaceCharsAux pat rep fuel rest

def replaceChars (pat rep l : List Char) : List Char :=
  replaceCharsAux pat rep l.length l

def strReplace (s pat rep : String) : String :=
  String.mk (replaceChars pat.data rep.data s.data)

/-- Model of `Path.is_absolute` for posix paths. -/
def strIsAbsolute (s : String) : Bool :=
  match s.data with
  | [] => false
  | c :: _ => c = '/'

/-- Index of the last occurrence of `c` in `l`. -/
def rfindIdx (c : Char) : List Char → Option Nat
  | [] => none
  | x :: rest =>
    match rfindIdx c rest with
    | some i => some (i + 1)
    | none => if x = c then some 0 else none

/-- Model of `os.path.splitext(s)[0]`: drop the extension of the basename,
treating leading dots of the basename as part of the root. -/
def splitextRoot (s : String) : String :=
  let l := s.data
  let fstart := match rfindIdx '/' l with | some i => i + 1 | none => 0
  match rfindIdx '.' l with
  | some d =>
    if fstart ≤ d ∧ ((l.drop fstart).take (d - fstart)).any (fun c => c ≠ '.') then
      String.mk (l.take d)
    else s
  | none => s

/-- Model of `clean_filename`: maps characters not allowed in file names to
safe substitutes (source lines 102-122). -/
def clean_filename (filename : String) : String :=
  let f := strReplace filename " " "_"
  let f := strReplace f "." "_"
  let f := strReplace f ":" "-"
  let f := strReplace f "/" "-"
  let f := strReplace f "\\" "-"
  let f := strReplace f "?" "_"
  let f := strReplace f "*" "_"
  let f := strReplace f "<" "_smaller_"
  let f := strReplace f ">" "_greater_"
  let f := strReplace f "|" "-"
  let f := strReplace f "\"" "_quote_"
  f

/-! ## Row batches (model of the numpy arrays carried by an event page)

A `Row` is one slice along axis 0 of a channel's batch.  `ndTrailing`
computes the trailing shape `shape[1:]` that `np.asarray` would give a
list of such rows (only depth-2 nesting is modelled; the claims never use
deeper arrays). -/

inductive Row where
  | scalar (v : Int)
  | vec (vs : List Int)
  | rstr (s : String)
  | rbytes (s : String)
  | ntup (fields : List (String × Int))
deriving DecidableEq, Repr

def rowIsNtup : Row → Bool
  | Row.ntup _ => true
  | _ => false

def rowIsStr : Row → Bool
  | Row.rstr _ => true
  | _ => false

def rowVecLen : Row → Option Nat
  | Row.vec vs => some vs.length
  | _ => none

/-- Trailing shape `np.asarray(rows).shape[1:]`. -/
def ndTrailing (rows : List Row) : List Nat :=
  match rows with
  | [] => []
  | r :: rest =>
    match r with
    | Row.vec vs =>
      if rest.all (fun x => rowVecLen x = some vs.length) then [vs.length] else []
    | _ => []

/-- Model of `.astype(bytes)` on a `<U` dtyped array. -/
def rowToBytes : Row → Row
  | Row.rstr s => Row.rbytes s
  | Row.scalar v => Row.rbytes (toString v)
  | r => r

/-- Source lines 768-769 and 781-782: cast a unicode-dtyped array to bytes. -/
def castIfU (rows : List Row) : List Row :=
  if rows.any rowIsStr then rows.map rowToBytes else rows

/-! ## The hierarchical store backing a stream group -/

/-- Per-channel metadata from a descriptor's `data_keys` entry.  `variables`
models the optional `metadata["variables"]` list; `attrs` abstracts the
remaining key/value pairs that get attached as dataset attributes. -/
structure DataKeyMeta where
  varNames : Option (List String) := none -- metadata["variables"] (reserved word in Lean)
  attrs : List (String × String) := []
deriving DecidableEq, Repr

/-- A growable dataset: its rows, its fixed trailing shape, its attributes. -/
structure DSet where
  rows : List Row
  trailing : List Nat
  attrs : List (String × String) := []
deriving DecidableEq, Repr

/-- A stream group: `time`/`ElapsedTime` datasets, channel datasets, and
channel sub-groups (created for namedtuple / variable-signal channels).
An empty `time` list models the dataset not yet being created. -/
structure SGroup where
  time : List Int := []
  elapsed : List Int := []
  dsets : List (String × DSet) := []
  subs : List (String × List (String × DSet)) := []
deriving DecidableEq, Repr

def SGroup.empty : SGroup := {}

/-- The keys `stream_group.keys()` would report besides the channel datasets. -/
def timeKeysOf (g : SGroup) : List String :=
  if g.time.isEmpty then [] else ["time", "ElapsedTime"]

/-- What `self._stream_groups` maps a descriptor uid to: either the marker
string for the live-metadata pseudo-stream, or an h5 group (a group id into
the `groups` store). -/
inductive SGRef where
  | live
  | ref (gid : String)
deriving DecidableEq, Repr

/-- The stitched virtual views written at `stop`: one slot per row of the
total layout, `none` for a slot no ledger entry filled. -/
structure VirtView where
  values : List (Option Row)
  times : List (Option Int)
deriving DecidableEq, Repr

/-- The serializer state (the `Serializer` instance attributes that the
descriptor/event_page/stop handlers touch, plus the h5 groups they write). -/
structure SState where
  stream_groups : List (String × SGRef) := []
  stream_names : List (String × String) := []
  stream_metadata : List (String × List (String × DataKeyMeta)) := []
  channels_in_streams : List (String × List String) := []
  stream_counter : List (String × Nat) := []
  current_stream : Option String := none
  channel_links : List String := []
  channel_metadata : List (String × List (String × String)) := []
  groups : List (String × SGroup) := []
  meas_details : List (String × Int) := []
  end_time : Option Int := none
  virt : List (String × VirtView) := []
  start_time : Int := 0
  diags : List String := []
deriving DecidableEq, Repr

/-! ## `Serializer.descriptor` (source lines 681-698) -/

structure Descriptor where
  name : String
  uid : String
  data_keys : List (String × DataKeyMeta)
deriving DecidableEq, Repr

/-- `"primary"` may already hold channel sub-groups or datasets under the
data entry; a new stream group name colliding with one of them would make
`create_group` raise. -/
def dataGroupHasKey (s : SState) (name : String) : Bool :=
  match alookup "data" s.groups with
  | some g =>
    (g.dsets.map Prod.fst).contains name || (g.subs.map Prod.fst).contains name
      || (timeKeysOf g).contains name
  | none => false

def Serializer.descriptor (doc : Descriptor) (s : SState) : Except String SState :=
  if strContains doc.name "_fits_readying_" then Except.ok s
  else if (alookup doc.name s.stream_groups).isSome then
    -- NOTE (faithful to the source): the membership test is on
    -- `self._stream_groups`, whose keys are descriptor *uids*, not names.
    Except.error ("Stream " ++ doc.name ++ " already exists.")
  else if doc.name = "primary" then
    Except.ok { s with
      stream_groups := aset doc.uid (SGRef.ref "data") s.stream_groups,
      stream_names := aset doc.name doc.uid s.stream_names,
      stream_metadata := aset doc.uid doc.data_keys s.stream_metadata }
  else if doc.name = "_live_metadata_reading_" then
    Except.ok { s with stream_groups := aset doc.uid SGRef.live s.stream_groups }
  else
    let gid := "data/" ++ doc.name
    if (alookup gid s.groups).isSome || dataGroupHasKey s doc.name then
      Except.error "unable to create group (name already exists)"
    else
      Except.ok { s with
        groups := aset gid SGroup.empty s.groups,
        stream_groups := aset doc.uid (SGRef.ref gid) s.stream_groups,
        stream_names := aset doc.name doc.uid s.stream_names,
        stream_metadata := aset doc.uid doc.data_keys s.stream_metadata }

/-! ## `Serializer._add_data_to_stream_group` (source lines 774-797) -/

/-- `chanMeta` is `self._channel_metadata`; `otherKeys` are the non-dataset
keys of the target group (sub-groups and the time datasets), against which
the python `ep_data_key not in stream_group.keys()` test also matches.
Returns the updated dataset map and any diagnostics printed. -/
def addData (chanMeta : List (String × List (String × String))) (meta : DataKeyMeta)
    (dsets : List (String × DSet)) (otherKeys : List String)
    (rows : List Row) (key : String) : Except String (List (String × DSet) × List String) :=
  match alookup key dsets with
  | some ds =>
    if rows.length = 0 then Except.error "ValueError: broadcast of empty selection"
    else if ndTrailing rows = ds.trailing then
      Except.ok (amod key (fun d => { d with rows := d.rows ++ rows }) dsets, [])
    else Except.error "TypeError: shape incompatible with resized dataset"
  | none =>
    if otherKeys.contains key then Except.error "cannot treat a group as a dataset"
    else if (rows.length :: ndTrailing rows).contains 0 then
      Except.ok (dsets, ["Skipping " ++ key ++ " because of shape"])
    else
      let rows2 := castIfU rows
      Except.ok
        (aset key
          { rows := rows2, trailing := ndTrailing rows2,
            attrs := meta.attrs ++ (alookup key chanMeta).getD [] } dsets, [])

/-! ## `Serializer.event_page` (source lines 700-772) -/

structure EventPage where
  descriptor : String
  time : List Int
  data : List (String × List Row)
deriving DecidableEq, Repr

/-- `self._stream_counter[-1][1] += 1` on a non-empty ledger. -/
def incLastCount : List (String × Nat) → List (String × Nat)
  | [] => []
  | [(u, c)] => [(u, c + 1)]
  | e :: r => e :: incLastCount r

/-- Source lines 715-719: update the arrival ledger.  A batch for the stream
the previous batch went to increments the last entry's count; any other
batch appends a fresh `(uid, 1)` entry. -/
def ledgerUpd (uid : String) (s : SState) : Except String SState :=
  if s.current_stream ≠ some uid then
    Except.ok { s with
      current_stream := some uid,
      stream_counter := s.stream_counter ++ [(uid, 1)] }
  else
    match s.stream_counter with
    | [] => Except.error "IndexError: empty stream counter"
    | _ =>
      Except.ok { s with stream_counter := incLastCount s.stream_counter }

/-- Source lines 722-737: only `doc["time"][0]` is appended to the group's
`time` dataset (and its offset from the start time to `ElapsedTime`),
regardless of how many rows the page carries. -/
def groupWriteTime (t0 e0 : Int) (g : SGroup) : SGroup :=
  if g.time.isEmpty then { g with time := [t0], elapsed := [e0] }
  else { g with time := g.time ++ [t0], elapsed := g.elapsed ++ [e0] }

/-- Fetch (or create) the sub-group used for namedtuple / variable-signal
channels (source lines 746-750). -/
def getSub (g : SGroup) (key : String) : Except String (List (String × DSet)) :=
  match alookup key g.subs with
  | some m => Except.ok m
  | none =>
    if (g.dsets.map Prod.fst).contains key || (timeKeysOf g).contains key then
      Except.error "existing key is not a group"
    else Except.ok []

/-- Per-channel-key processing inside the event page loop, acting on the
stream group alone (source lines 738-772 without the state bookkeeping). -/
def epKeyCore (meta : DataKeyMeta) (chanMeta : List (String × List (String × String)))
    (g : SGroup) (key : String) (rows : List Row) :
    Except String (SGroup × List String) :=
  match rows.head? with
  | none => Except.error "IndexError: list index out of range"
  | some r0 =>
    if rowIsNtup r0 || (strEndsWith key "_variable_signal" && meta.varNames.isSome) then
      match getSub g key with
      | Except.error e => Except.error e
      | Except.ok sub =>
        match r0 with
        | Row.ntup fields =>
          -- one dataset per namedtuple field, fed from row 0 only
          match fields.foldlM
              (fun (acc : List (String × DSet) × List String) fv =>
                match addData chanMeta meta acc.1 [] [Row.scalar fv.2] fv.1 with
                | Except.ok (d, m) => Except.ok (d, acc.2 ++ m)
                | Except.error e => Except.error e) (sub, []) with
          | Except.ok (sub2, msgs) =>
            Except.ok ({ g with subs := aset key sub2 g.subs }, msgs)
          | Except.error e => Except.error e
        | Row.vec vs =>
          -- one dataset per declared variable, fed from row 0 only
          match meta.varNames with
          | none => Except.error "TypeError"
          | some vars =>
            match vars.enum.foldlM
                (fun (acc : List (String × DSet) × List String) iv =>
                  match vs.get? iv.1 with
                  | none => Except.error "IndexError: row too short for variables"
                  | some x =>
                    match addData chanMeta meta acc.1 [] [Row.scalar x] iv.2 with
                    | Except.ok (d, m) => Except.ok (d, acc.2 ++ m)
                    | Except.error e => Except.error e) (sub, []) with
            | Except.ok (sub2, msgs) =>
              Except.ok ({ g with subs := aset key sub2 g.subs }, msgs)
            | Except.error e => Except.error e
        | _ => Except.error "TypeError: row is not subscriptable"
    else
      match addData chanMeta meta g.dsets ((g.subs.map Prod.fst) ++ timeKeysOf g)
          (castIfU rows) key with
      | Except.ok (d, msgs) => Except.ok ({ g with dsets := d }, msgs)
      | Except.error e => Except.error e

/-- Source lines 740-741: record, once per channel, the first stream that
ever wrote to it.  NOTE: later streams are never appended. -/
def markChannel (uid key : String) (s : SState) : SState :=
  if (alookup key s.channels_in_streams).isSome then s
  else { s with channels_in_streams := aset key [uid] s.channels_in_streams }

/-- One `(key, rows)` pair of `doc["data"]`.  Looks up the declared metadata
(a missing key is a fatal `KeyError`), marks the channel, then writes. -/
def epKey (uid gid : String) (s : SState) (kv : String × List Row) :
    Except String SState :=
  match alookup uid s.stream_metadata with
  | none => Except.error "KeyError: descriptor metadata"
  | some md =>
    match alookup kv.1 md with
    | none => Except.error "KeyError: data key not declared"
    | some meta =>
      match alookup gid (markChannel uid kv.1 s).groups with
      | none => Except.error "KeyError: stream group missing"
      | some g =>
        match epKeyCore meta (markChannel uid kv.1 s).channel_metadata g kv.1 kv.2 with
        | Except.ok (g2, msgs) =>
          Except.ok { markChannel uid kv.1 s with
            groups := amod gid (fun _ => g2) (markChannel uid kv.1 s).groups,
            diags := (markChannel uid kv.1 s).diags ++ msgs }
        | Except.error e => Except.error e

def Serializer.event_page (doc : EventPage) (s : SState) : Except String SState :=
  match alookup doc.descriptor s.stream_groups with
  | none => Except.ok s
  | some SGRef.live =>
    -- redirect the single record's fields into measurement_details
    (match alookup "live_metadata" doc.data with
     | none => Except.error "KeyError: live_metadata"
     | some rows =>
       match rows.head? with
       | none => Except.error "IndexError: list index out of range"
       | some (Row.ntup fields) =>
         Except.ok { s with
           meas_details := fields.foldl (fun m kv => aset kv.1 kv.2 m) s.meas_details }
       | some _ => Except.error "AttributeError: no _fields")
  | some (SGRef.ref gid) =>
    match ledgerUpd doc.descriptor s with
    | Except.error e => Except.error e
    | Except.ok s1 =>
      match doc.time.head? with
      | none => Except.error "IndexError: doc time empty"
      | some t0 =>
        match alookup gid s1.groups with
        | none => Except.error "KeyError: stream group missing"
        | some _ =>
          let s2 := { s1 with
            groups := amod gid (groupWriteTime t0 (t0 - s1.start_time)) s1.groups }
          doc.data.foldlM (epKey doc.descriptor gid) s2

def runEvents (docs : List EventPage) (s : SState) : Except String SState :=
  docs.foldlM (fun t d => Serializer.event_page d t) s


/-! ## `Serializer.stop` (source lines 802-845): the cross-stream stitcher -/

/-- The per-stream read cursors and the partially filled virtual layouts
(`n`, `counts_per_stream`, `layout`, `layout_time` in the source). -/
structure ReplayAcc where
  n : Nat
  counts : List (String × Nat)
  vals : List (Option Row)
  times : List (Option Int)
deriving DecidableEq, Repr

/-- Write `seg` into the layout starting at slot `n` (python
`layout[n : n + count] = source[...]`; callers establish the bounds). -/
def fillAt {α : Type} (l : List (Option α)) (n : Nat) (seg : List α) : List (Option α) :=
  l.take n ++ seg.map some ++ l.drop (n + seg.length)

/-- One ledger entry of the replay loop (source lines 830-843).  Entries for
streams outside this channel's contributing list are skipped without
advancing `n`. -/
def replayStep (streamDocs : List String)
    (srcs : List (String × (List Row × List Int))) (total : Nat)
    (acc : ReplayAcc) (e : String × Nat) : Except String ReplayAcc :=
  if streamDocs.contains e.1 = false then Except.ok acc
  else
    let nst := (alookup e.1 acc.counts).getD 0
    match alookup e.1 srcs with
    | none => Except.error "KeyError: source"
    | some sv =>
      let seg := (sv.1.drop nst).take e.2
      let segT := (sv.2.drop nst).take e.2
      let tgt := min e.2 (total - acc.n)
      if seg.length = tgt ∧ segT.length = tgt then
        Except.ok
          { n := acc.n + e.2,
            counts := aset e.1 (nst + e.2) acc.counts,
            vals := fillAt acc.vals acc.n seg,
            times := fillAt acc.times acc.n segT }
      else Except.error "virtual layout selection mismatch"

def replayAll (counter : List (String × Nat)) (streamDocs : List String)
    (srcs : List (String × (List Row × List Int))) (total : Nat) :
    Except String (List (Option Row) × List (Option Int)) :=
  match counter.foldlM (replayStep streamDocs srcs total)
      { n := 0, counts := [], vals := List.replicate total none,
        times := List.replicate total none } with
  | Except.ok acc => Except.ok (acc.vals, acc.times)
  | Except.error e => Except.error e

/-- Source lines 811-822: accumulate total length, sources and the last
dataset over a channel's contributing streams. -/
def gatherStep (s : SState) (ch : String)
    (acc : Nat × List (String × (List Row × List Int)) × Option DSet)
    (st : String) :
    Except String (Nat × List (String × (List Row × List Int)) × Option DSet) :=
  match alookup st s.stream_groups with
  | some (SGRef.ref gid) =>
    match alookup gid s.groups with
    | some g =>
      if g.time.isEmpty then Except.error "KeyError: time"
      else
        match alookup ch g.dsets with
        | some ds =>
          Except.ok (acc.1 + g.time.length, aset st (ds.rows, g.time) acc.2.1, some ds)
        | none => Except.error "KeyError: channel missing from stream group"
    | none => Except.error "KeyError: group"
  | _ => Except.error "KeyError: stream group"

def gather (s : SState) (ch : String) (streamDocs : List String) :
    Except String (Nat × List (String × (List Row × List Int)) × Option DSet) :=
  streamDocs.foldlM (gatherStep s ch) (0, [], none)

/-- One channel of the stitching loop.  Channels without a recorded sensor
location are skipped; `dataset is None` (no contributing stream) skips too. -/
def stopOne (s : SState) (ch : String) (streamDocs : List String) :
    Except String SState :=
  if s.channel_links.contains ch = false then Except.ok s
  else
    match gather s ch streamDocs with
    | Except.error e => Except.error e
    | Except.ok (total, srcs, odset) =>
      match odset with
      | none => Except.ok s
      | some _ =>
        match replayAll s.stream_counter streamDocs srcs total with
        | Except.error e => Except.error e
        | Except.ok vt =>
          Except.ok { s with virt := aset ch { values := vt.1, times := vt.2 } s.virt }

/-- `Serializer.stop` restricted to what the claims exercise: the end-time
write and the virtual-dataset stitching (plot/fit export and the NeXus
projector act on empty `plot_data` / disabled `do_nexus_output`). -/
def Serializer.stop (t : Int) (s : SState) : Except String SState :=
  let s1 := { s with end_time := some t }
  s1.channels_in_streams.foldlM (fun st kv => stopOne st kv.1 kv.2) s1

/-! ## `FileManager` (source lines 243-322)

Python mixes `pathlib.Path` and `str` values inside `_reserved_names`:
the initial candidate is a `Path`, every renamed candidate is a `str`, and
`Path(x) == x_as_str` is `False` in python.  `PyPath` keeps that type tag.
Filesystem resolution (`expanduser().resolve()`) is modelled as plain
concatenation under the output root; `os.path.isfile` is modelled by a
`storage` list of path strings. -/

inductive PyPath where
  | pathObj (s : String)
  | strObj (s : String)
deriving DecidableEq, Repr

def PyPath.posix : PyPath → String
  | PyPath.pathObj s => s
  | PyPath.strObj s => s

structure FMState where
  directory : String
  newFileEach : Bool
  reservedNames : List PyPath := []
  artifactsMap : List (String × List PyPath) := []
  storage : List String := []
deriving DecidableEq, Repr

/-- The python condition
`(p in self._reserved_names) or os.path.isfile(p) and self._new_file_each`. -/
def occupied (s : FMState) (p : PyPath) : Bool :=
  s.reservedNames.contains p || (s.storage.contains p.posix && s.newFileEach)

def joinPath (dir rel : String) : String := dir ++ "/" ++ rel

/-- One rename step of the while loop (source lines 300-303). -/
def bumpName (q : String) (i : Nat) : String :=
  let old := "_" ++ toString (i - 1) ++ ".nxs"
  if strEndsWith q old then strReplace q old ("_" ++ toString i ++ ".nxs")
  else splitextRoot q ++ "_" ++ toString i ++ ".nxs"

/-- The while loop (source lines 294-304), with fuel standing in for the
unbounded search.  A `pathObj` candidate can only reach the loop body when
it is occupied, where python would fail on `Path.endswith`. -/
def reserveLoop (s : FMState) : Nat → Nat → PyPath → Except String PyPath
  | 0, _, _ => Except.error "loop limit reached"
  | fuel + 1, i, p =>
    if occupied s p then
      match p with
      | PyPath.pathObj _ => Except.error "AttributeError: Path has no endswith"
      | PyPath.strObj q => reserveLoop s fuel (i + 1) (PyPath.strObj (bumpName q i))
    else Except.ok p

def artifactsAppend (k : String) (v : PyPath) (m : List (String × List PyPath)) :
    List (String × List PyPath) :=
  aset k ((alookup k m).getD [] ++ [v]) m

/-- `FileManager.reserve_name` (source lines 274-307).  Returns the result
together with the (possibly updated) manager state; an exception leaves the
state untouched, as in the source. -/
def FileManager.reserve_name (entry_name relative_file_path : String) (fuel : Nat)
    (s : FMState) : Except String PyPath × FMState :=
  if strIsAbsolute relative_file_path then
    (Except.error (relative_file_path ++ " must be structured like a relative file path."), s)
  else
    let p0 := PyPath.pathObj (joinPath s.directory relative_file_path)
    let p1 :=
      if occupied s p0 then
        let cl := clean_filename entry_name
        let ps := p0.posix
        PyPath.strObj
          (if strEndsWith ps (cl ++ ".nxs") then ps
           else splitextRoot ps ++ "_" ++ cl ++ ".nxs")
      else p0
    match reserveLoop s fuel 1 p1 with
    | Except.error e => (Except.error e, s)
    | Except.ok p =>
      (Except.ok p,
       { s with reservedNames := s.reservedNames ++ [p],
                artifactsMap := artifactsAppend entry_name p s.artifactsMap })

/-! ## `recourse_entry_dict` (source lines 143-201)

Metadata values are modelled by the mutual family `MVal`/`MFields`/`MList`
(nested mappings, sequences, text, numbers, `None`).  The h5 side is the
`HEntry` tree; leaves distinguish the three storage routes of a sequence
value: fixed-width text (`astype("S")`), native storage, and the
`str(val)` fallback on `TypeError`.  (The `databroker` Start/Stop document
conversion at lines 162-169 involves external types and is not modelled.) -/

mutual
inductive MVal where
  | mstr (s : String)
  | mint (n : Int)
  | mnone
  | mdict (fields : MFields)
  | mlist (elems : MList)
deriving DecidableEq, Repr

inductive MFields where
  | fnil
  | fcons (k : String) (v : MVal) (rest : MFields)
deriving DecidableEq, Repr

inductive MList where
  | lnil
  | lcons (v : MVal) (rest : MList)
deriving DecidableEq, Repr
end

def MList.toList : MList → List MVal
  | MList.lnil => []
  | MList.lcons v rest => v :: rest.toList

def MVal.isDict : MVal → Bool
  | MVal.mdict _ => true
  | _ => false

def MVal.isStrV : MVal → Bool
  | MVal.mstr _ => true
  | _ => false

/-- `all(isinstance(e, dict) for e in val)`. -/
def mlistAllDict : MList → Bool
  | MList.lnil => true
  | MList.lcons v rest => v.isDict && mlistAllDict rest

/-- `any(isinstance(item, str) for item in val)`. -/
def mlistAnyStr : MList → Bool
  | MList.lnil => false
  | MList.lcons v rest => v.isStrV || mlistAnyStr rest

/-- Index of the first non-mapping element, if any. -/
def firstNonDict : MList → Option Nat
  | MList.lnil => none
  | MList.lcons v rest =>
    if v.isDict then (firstNonDict rest).map (· + 1) else some 0

mutual
/-- Shape of a value as a homogeneous numeric array, `none` when numpy/h5py
could not store it natively (ragged, or containing text/None/dicts). -/
def natShape : MVal → Option (List Nat)
  | MVal.mint _ => some []
  | MVal.mlist l => natShapeList l
  | _ => none

def natShapeList : MList → Option (List Nat)
  | MList.lnil => some [0]
  | MList.lcons v rest =>
    match natShape v with
    | none => none
    | some sh =>
      match natShapeCount sh rest with
      | none => none
      | some n => some ((n + 1) :: sh)

def natShapeCount (sh : List Nat) : MList → Option Nat
  | MList.lnil => some 0
  | MList.lcons v rest =>
    if natShape v = some sh then (natShapeCount sh rest).map (· + 1) else none
end

mutual
/-- Model of python `str()` on a metadata value. -/
def pyStr : MVal → String
  | MVal.mstr s => s
  | MVal.mint n => toString n
  | MVal.mnone => "None"
  | MVal.mdict f => "\x7b" ++ pyReprFields f ++ "\x7d"
  | MVal.mlist l => "[" ++ pyReprElems l ++ "]"

/-- Model of python `repr()` (strings gain quotes). -/
def pyRepr : MVal → String
  | MVal.mstr s => String.singleton (Char.ofNat 39) ++ s ++ String.singleton (Char.ofNat 39)
  | MVal.mint n => toString n
  | MVal.mnone => "None"
  | MVal.mdict f => "\x7b" ++ pyReprFields f ++ "\x7d"
  | MVal.mlist l => "[" ++ pyReprElems l ++ "]"

def pyReprFields : MFields → String
  | MFields.fnil => ""
  | MFields.fcons k v MFields.fnil =>
    String.singleton (Char.ofNat 39) ++ k ++ String.singleton (Char.ofNat 39) ++ ": " ++ pyRepr v
  | MFields.fcons k v rest =>
    String.singleton (Char.ofNat 39) ++ k ++ String.singleton (Char.ofNat 39) ++ ": " ++ pyRepr v
      ++ ", " ++ pyReprFields rest

def pyReprElems : MList → String
  | MList.lnil => ""
  | MList.lcons v MList.lnil => pyRepr v
  | MList.lcons v rest => pyRepr v ++ ", " ++ pyReprElems rest
end

/-- Python `str()` of every element (what `np.array(val).astype("S")` keeps). -/
def pyStrList (l : MList) : List String := l.toList.map pyStr

/-- The h5 node tree built by the recursive mapper. -/
inductive HEntry where
  | node (children : List (String × HEntry)) (attrs : List (String × MVal))
  | arrS (xs : List String)
  | arrNative (v : MVal)
  | strRepr (s : String)
  | scalarI (n : Int)
  | scalarS (s : String)

def HEntry.isArrLeaf : HEntry → Bool
  | HEntry.arrS _ => true
  | HEntry.arrNative _ => true
  | HEntry.strRepr _ => true
  | _ => false

/-- Source lines 187-194: materialize a sequence as one array leaf. -/
def listLeaf (l : MList) : HEntry :=
  if mlistAnyStr l then HEntry.arrS (pyStrList l)
  else if (natShapeList l).isSome then HEntry.arrNative (MVal.mlist l)
  else HEntry.strRepr (pyStr (MVal.mlist l))

mutual
/-- `recourse_entry_dict(entry, metadata)`: `entry` is a group given as its
children and attrs.  A non-mapping value sets `entry.attrs["value"]`. -/
def recourse_entry_dict (ch : List (String × HEntry)) (ats : List (String × MVal))
    (m : MVal) : Except String (List (String × HEntry) × List (String × MVal)) :=
  match m with
  | MVal.mdict fields => recourseFields ch ats fields
  | _ => Except.ok (ch, aset "value" m ats)

/-- The `for key, val in metadata.items()` loop (source lines 161-200). -/
def recourseFields (ch : List (String × HEntry)) (ats : List (String × MVal)) :
    MFields → Except String (List (String × HEntry) × List (String × MVal))
  | MFields.fnil => Except.ok (ch, ats)
  | MFields.fcons key v rest =>
    match v with
    | MVal.mdict sub =>
      if key = "start" then
        -- a key literally named "start" folds into the current node
        match recourseFields ch ats sub with
        | Except.ok r => recourseFields r.1 r.2 rest
        | Except.error e => Except.error e
      else if (alookup key ch).isSome then
        Except.error "unable to create group (name already exists)"
      else
        match recourseFields [] [] sub with
        | Except.ok r =>
          recourseFields (ch ++ [(key, HEntry.node r.1 r.2)]) ats rest
        | Except.error e => Except.error e
    | MVal.mlist l =>
      match recourseListElems ch key 0 l with
      | Except.error e => Except.error e
      | Except.ok (ch2, noDict) =>
        if noDict then
          if (alookup key ch2).isSome then
            Except.error "unable to create link (name already exists)"
          else recourseFields (ch2 ++ [(key, listLeaf l)]) ats rest
        else recourseFields ch2 ats rest
    | MVal.mnone => recourseFields ch ats rest
    | MVal.mstr s =>
      if (alookup key ch).isSome then
        Except.error "unable to create link (name already exists)"
      else recourseFields (ch ++ [(key, HEntry.scalarS s)]) ats rest
    | MVal.mint n =>
      if (alookup key ch).isSome then
        Except.error "unable to create link (name already exists)"
      else recourseFields (ch ++ [(key, HEntry.scalarI n)]) ats rest

/-- The `for i, value in enumerate(val)` loop (source lines 177-186): create
an indexed child per mapping element, stop at the first non-mapping
element, reporting whether one was found (`no_dict`). -/
def recourseListElems (ch : List (String × HEntry)) (key : String) (i : Nat) :
    MList → Except String (List (String × HEntry) × Bool)
  | MList.lnil => Except.ok (ch, false)
  | MList.lcons v rest =>
    match v with
    | MVal.mdict sub =>
      let name := key ++ "_" ++ toString i
      if (alookup name ch).isSome then
        Except.error "unable to create group (name already exists)"
      else
        match recourseFields [] [] sub with
        | Except.ok r =>
          recourseListElems (ch ++ [(name, HEntry.node r.1 r.2)]) key (i + 1) rest
        | Except.error e => Except.error e
    | _ => Except.ok (ch, true)
end

/-! ## Claim-side measuring functions -/

/-- Total of the ledger counts. -/
def sumCounts (l : List (String × Nat)) : Nat := (l.map Prod.snd).sum

/-- Ledger count attributed to one stream. -/
def sumFor (u : String) : List (String × Nat) → Nat
  | [] => 0
  | e :: r => (if e.1 = u then e.2 else 0) + sumFor u r

/-- No two consecutive ledger entries name the same stream. -/
def adjOk : List (String × Nat) → Bool
  | [] => true
  | [_] => true
  | a :: b :: r => (a.1 ≠ b.1 : Bool) && adjOk (b :: r)

/-- Did the serializer route this batch to a real stream group (neither
unknown nor redirected to live metadata)? -/
def countedBy (sg : List (String × SGRef)) (d : EventPage) : Bool :=
  match alookup d.descriptor sg with
  | some (SGRef.ref _) => true
  | _ => false

/-- The row count of a batch: event pages carry one timestamp per row. -/
def rowsOfBatch (d : EventPage) : Nat := d.time.length

def totalRows (docs : List EventPage) : Nat := (docs.map rowsOfBatch).sum

/-! ## Concrete run scenarios used by the claims -/

/-- A freshly started run: the main data node exists, nothing else. -/
def postStart : SState := { groups := [("data", SGroup.empty)], start_time := 100 }

def dPrim : Descriptor :=
  { name := "primary", uid := "u1", data_keys := [("temp", {})] }

def dPrim2 : Descriptor :=
  { name := "primary", uid := "u2", data_keys := [("temp", {})] }

def dSecA : Descriptor := { name := "sec", uid := "u3", data_keys := [] }

def dSecB : Descriptor := { name := "sec", uid := "u4", data_keys := [] }

/-- Two duplicate declarations of the stream name "primary". -/
def c3runPrimary : Except String SState :=
  (Serializer.descriptor dPrim postStart).bind (Serializer.descriptor dPrim2)

/-- Two duplicate declarations of a secondary stream name. -/
def c3runSec : Except String SState :=
  (Serializer.descriptor dSecA postStart).bind (Serializer.descriptor dSecB)

/-- Claim C2's scenario: stream "primary" with channel `temp`, two batches of
3 and 2 rows at absolute times 100,101,102 and 103,104 (start time 100). -/
def ev1 : EventPage :=
  { descriptor := "u1", time := [100, 101, 102],
    data := [("temp", [Row.scalar 10, Row.scalar 20, Row.scalar 30])] }

def ev2 : EventPage :=
  { descriptor := "u1", time := [103, 104],
    data := [("temp", [Row.scalar 40, Row.scalar 50])] }

def c2run : Except String SState :=
  (Serializer.descriptor dPrim postStart).bind (runEvents [ev1, ev2])

def c2primaryGroup : Option SGroup :=
  c2run.toOption.bind (fun s => alookup "data" s.groups)

/-- Claim C1's scenario: channel `ch` fed by stream A (5 rows), then stream
B (3 rows), then stream A again (5 rows), one row per event page. -/
def postC1 : SState :=
  { groups := [("data", SGroup.empty)], start_time := 0, channel_links := ["ch"] }

def mkEv (u : String) (t v : Int) : EventPage :=
  { descriptor := u, time := [t], data := [("ch", [Row.scalar v])] }

def c1docs : List EventPage :=
  [mkEv "uA" 0 10, mkEv "uA" 1 11, mkEv "uA" 2 12, mkEv "uA" 3 13, mkEv "uA" 4 14,
   mkEv "uB" 5 100, mkEv "uB" 6 101, mkEv "uB" 7 102,
   mkEv "uA" 8 15, mkEv "uA" 9 16, mkEv "uA" 10 17, mkEv "uA" 11 18, mkEv "uA" 12 19]

def dPrimA : Descriptor :=
  { name := "primary", uid := "uA", data_keys := [("ch", {})] }

def dSecC1 : Descriptor :=
  { name := "sec", uid := "uB", data_keys := [("ch", {})] }

def c1run : Except String SState :=
  (((Serializer.descriptor dPrimA postC1).bind
      (Serializer.descriptor dSecC1)).bind
      (runEvents c1docs)).bind (Serializer.stop 200)

def c1view : Option VirtView := c1run.toOption.bind (fun s => alookup "ch" s.virt)

/-- The value series claim C1 predicts for the channel. -/
def c1claimValues : List (Option Row) :=
  [some (Row.scalar 10), some (Row.scalar 11), some (Row.scalar 12),
   some (Row.scalar 13), some (Row.scalar 14),
   some (Row.scalar 100), some (Row.scalar 101), some (Row.scalar 102),
   some (Row.scalar 15), some (Row.scalar 16), some (Row.scalar 17),
   some (Row.scalar 18), some (Row.scalar 19)]

/-- Claims C4/C5/C7: a run with one known stream `u` mapped to the data node. -/
def postC4 : SState :=
  { groups := [("data", SGroup.empty)],
    stream_groups := [("u", SGRef.ref "data")],
    stream_metadata := [("u", [("temp", {}), ("k", {}), ("k2", {})])] }

/-- One batch carrying two rows (two timestamps, two values). -/
def ev4 : EventPage :=
  { descriptor := "u", time := [0, 1],
    data := [("temp", [Row.scalar 1, Row.scalar 2])] }

def postC5 : SState := { postC4 with channel_links := ["temp"] }

def c5run : Except String SState :=
  (runEvents [ev4] postC5).bind (Serializer.stop 9)

/-- Claim C7's failing input: an empty row list (array shape `(0, 3)`). -/
def ev7a : EventPage :=
  { descriptor := "u", time := [0], data := [("k", [])] }

/-- A batch whose `k` array has shape `(2, 0)` next to a valid channel. -/
def ev7b : EventPage :=
  { descriptor := "u", time := [0],
    data := [("k", [Row.vec [], Row.vec []]), ("k2", [Row.scalar 1])] }

/-- Claim C8's counterexample input: `{"k": [{}, 5]}`. -/
def c8fields : MFields :=
  MFields.fcons "k"
    (MVal.mlist (MList.lcons (MVal.mdict MFields.fnil)
      (MList.lcons (MVal.mint 5) MList.lnil)))
    MFields.fnil

/-- Claim C6's failing input: an entry label whose cleaned form already ends
the requested file name. -/
def fm0 : FMState := { directory := "/out", newFileEach := true }

def fitsDoc : Descriptor :=
  { name := "x_fits_readying_0", uid := "u9", data_keys := [("temp", {})] }

def fitsEv : EventPage :=
  { descriptor := "u9", time := [0], data := [("temp", [Row.scalar 1])] }

/-- The final state of the C4 witness run (two two-row batches to `u`). -/
def c4wState : SState :=
  { stream_groups := [("u", SGRef.ref "data")],
    stream_metadata := [("u", [("temp", {}), ("k", {}), ("k2", {})])],
    channels_in_streams := [("temp", ["u"])],
    stream_counter := [("u", 2)],
    current_stream := some "u",
    groups := [("data",
      { time := [0, 0], elapsed := [0, 0],
        dsets := [("temp",
          { rows := [Row.scalar 1, Row.scalar 2, Row.scalar 1, Row.scalar 2],
            trailing := [] })] })] }

/-- Claim C8's witness sequence `[{}, 7]`. -/
def c8wList : MList :=
  MList.lcons (MVal.mdict MFields.fnil) (MList.lcons (MVal.mint 7) MList.lnil)

/-- A batch's payload for channel `ch` is a single plain row whose shape
has no zero dimension (the claims' "single-row batch" for this channel). -/
def goodChRows (ch : String) (d : EventPage) : Bool :=
  match alookup ch d.data with
  | some [r] => !(rowIsNtup r) && !((ndTrailing [r]).contains 0)
  | _ => false

/-- The run invariant behind the single-stream round-trip: after `k`
batches of stream `u` (group `gu`) carrying channel `ch`, the group's
`time` array, the channel dataset and the ledger's `u` total all have
length `k`, and `ch`'s recorded contributing-stream list is `[u]`. -/
def c5Inv (u gu ch : String) (SG : List (String × SGRef)) (CL : List String)
    (k : Nat) (s : SState) : Prop :=
  s.stream_groups = SG ∧
  s.channel_links = CL ∧
  (s.channels_in_streams.map Prod.fst).Nodup ∧
  sumFor u s.stream_counter = k ∧
  (∀ e, s.stream_counter.getLast? = some e → s.current_stream = some e.1) ∧
  alookup ch s.channels_in_streams = (if k = 0 then none else some [u]) ∧
  (∃ g, alookup gu s.groups = some g ∧ g.time.length = k ∧
    alookup ch g.subs = none ∧
    (if k = 0 then alookup ch g.dsets = none
     else ∃ ds, alookup ch g.dsets = some ds ∧ ds.rows.length = k))

/-- Single-row batches for the C5 witness run. -/
def ev5a : EventPage :=
  { descriptor := "u", time := [0], data := [("temp", [Row.scalar 1])] }

def ev5b : EventPage :=
  { descriptor := "u", time := [1], data := [("temp", [Row.scalar 2])] }

/-- The state after the C5 witness run (two single-row batches to `u`). -/
def c5wS1 : SState :=
  { stream_groups := [("u", SGRef.ref "data")],
    stream_metadata := [("u", [("temp", {}), ("k", {}), ("k2", {})])],
    channels_in_streams := [("temp", ["u"])],
    stream_counter := [("u", 2)],
    current_stream := some "u",
    channel_links := ["temp"],
    groups := [("data",
      { time := [0, 1], elapsed := [0, 1],
        dsets := [("temp",
          { rows := [Row.scalar 1, Row.scalar 2], trailing := [] })] })] }

/-- The state after `stop 9` in the C5 witness run. -/
def c5wS2 : SState :=
  { c5wS1 with
    end_time := some 9,
    virt := [("temp",
      { values := [some (Row.scalar 1), some (Row.scalar 2)],
        times := [some 0, some 1] })] }

/-! # Theorems -/

/-- Claim C1 (code bug): for the channel `ch` fed by stream A (rows 0-4),
then stream B (rows 0-2), then stream A again (rows 5-9), the view
materialized at stop reads only A's ten rows in order — stream B's rows are
absent, because `event_page` records only the first stream that ever wrote
a channel in `_channels_in_streams` and the stitcher skips every ledger
entry of an unrecorded stream.  The claimed 13-slot interleaving
`[A0..A4, B0..B2, A5..A9]` is not produced. -/
theorem c1_stitcher_reads_first_stream_only :
    c1view = some
      { values := [some (Row.scalar 10), some (Row.scalar 11), some (Row.scalar 12),
                   some (Row.scalar 13), some (Row.scalar 14), some (Row.scalar 15),
                   some (Row.scalar 16), some (Row.scalar 17), some (Row.scalar 18),
                   some (Row.scalar 19)],
        times := [some 0, some 1, some 2, some 3, some 4, some 8, some 9,
                  some 10, some 11, some 12] } ∧
    c1view.map VirtView.values ≠ some c1claimValues := by
  refine ⟨by rfl, ?_⟩
  decide

/-- Claim C2 (counterexample): in the claimed scenario the `time` dataset of
the primary group holds `[100, 103]` — only the first timestamp of each
batch is appended — not the claimed `[100, 101, 102, 103, 104]`. -/
theorem c2_time_array_not_per_row :
    c2primaryGroup.map SGroup.time = some [100, 103] ∧
    (some [100, 103] : Option (List Int)) ≠ some [100, 101, 102, 103, 104] := by
  refine ⟨by rfl, ?_⟩
  decide

/-- Claim C2 (amended): the `temp` dataset has length 5 with the values in
input order, but the `time` array is `[100, 103]` and the `ElapsedTime`
array is `[0, 3]`: `event_page` appends only `doc["time"][0]` per batch. -/
theorem c2_amended_scenario :
    c2primaryGroup.map (fun (g : SGroup) =>
        (g.time, g.elapsed, (alookup "temp" g.dsets).map DSet.rows)) =
      some ([100, 103], [0, 3],
        some [Row.scalar 10, Row.scalar 20, Row.scalar 30,
              Row.scalar 40, Row.scalar 50]) := by
  rfl

/-- Claim C3 (code bug): re-declaring the stream name "primary" under a new
uid is accepted — the duplicate check `stream_name in self._stream_groups`
consults a dict keyed by descriptor uids, so it never fires for a repeated
name — while a duplicated secondary stream name errors only because the
second `create_group` fails in the store. -/
theorem c3_duplicate_primary_descriptor_accepted :
    c3runPrimary.toOption.isSome = true ∧ c3runSec.toOption.isSome = false := by
  constructor <;> rfl

/-- Claim C4 (counterexample): one batch carrying two rows (two timestamps,
two `temp` values) produces the ledger `[("u", 1)]` with total count 1,
not the claimed total row count 2: the ledger counts event-page calls. -/
theorem c4_ledger_counts_batches_not_rows :
    (runEvents [ev4] postC4).toOption.map (fun s => sumCounts s.stream_counter) =
      some 1 ∧ totalRows [ev4] = 2 ∧ (1 : Nat) ≠ 2 := by
  refine ⟨by rfl, by rfl, ?_⟩
  decide

/-- Claim C5 (counterexample): `temp` receives all its rows from the single
stream `u`, in one batch of two rows; the view stitched at stop has one
slot (`[some 1]`) while the raw dataset holds both rows, so the view does
not equal the stream's raw array. -/
theorem c5_roundtrip_fails_on_multirow_batch :
    c5run.toOption.bind (fun s => alookup "temp" s.virt) =
      some { values := [some (Row.scalar 1)], times := [some 0] } ∧
    (c5run.toOption.bind (fun s => alookup "data" s.groups)).bind
        (fun (g : SGroup) => (alookup "temp" g.dsets).map DSet.rows) =
      some [Row.scalar 1, Row.scalar 2] ∧
    (some [some (Row.scalar 1)] : Option (List (Option Row))) ≠
      some [some (Row.scalar 1), some (Row.scalar 2)] := by
  refine ⟨by rfl, by rfl, ?_⟩
  decide

/-- Claim C6 (code bug): under "new file each" mode, reserving
`"a_run.nxs"` twice for the entry label `"run"` yields the same absolute
path `/out/a_run.nxs` both times.  The first reservation is stored as a
`pathlib.Path`; the second call's candidate is a plain `str` that the
cleaned-label suffix test leaves unchanged, and `str` never compares equal
to the reserved `Path`, so the collision goes undetected. -/
theorem c6_reserve_name_returns_same_path_twice :
    (FileManager.reserve_name "run" "a_run.nxs" 9 fm0).1 =
      Except.ok (PyPath.pathObj "/out/a_run.nxs") ∧
    (FileManager.reserve_name "run" "a_run.nxs" 9
        ((FileManager.reserve_name "run" "a_run.nxs" 9 fm0).2)).1 =
      Except.ok (PyPath.strObj "/out/a_run.nxs") ∧
    (PyPath.pathObj "/out/a_run.nxs").posix = (PyPath.strObj "/out/a_run.nxs").posix := by
  refine ⟨by rfl, by rfl, by rfl⟩

/-- Claim C7 (counterexample): a batch whose array for a new channel has
shape `(0, 3)` — an empty row list — raises (`ep_data_list[0]` at source
line 743) instead of being skipped without error. -/
theorem c7_zero_row_batch_raises :
    Serializer.event_page ev7a postC4 =
      Except.error "IndexError: list index out of range" := by
  rfl

/-- Claim C8 (counterexample): for `{"k": [{}, 5]}` the mapper creates the
indexed child node `k_0` for the leading mapping element *and* the array
leaf `k`, contradicting "exactly one array leaf ... with no child nodes
created for it". -/
theorem c8_mixed_list_also_creates_child_nodes :
    (recourseFields [] [] c8fields).toOption.map
        (fun r => r.1.map Prod.fst) = some ["k_0", "k"] ∧
    (["k_0", "k"] : List String) ≠ ["k"] := by
  refine ⟨by rfl, ?_⟩
  decide

/-- Claim C9: a reserve call with an absolute relative-path argument raises
the usage error immediately and leaves the manager state — reserved names
and artifacts included — untouched; only that call fails. -/
theorem c9_absolute_path_usage_error (entry rel : String) (fuel : Nat) (s : FMState)
    (h : strIsAbsolute rel = true) :
    (FileManager.reserve_name entry rel fuel s).1 =
      Except.error (rel ++ " must be structured like a relative file path.") ∧
    (FileManager.reserve_name entry rel fuel s).2 = s := by
  unfold FileManager.reserve_name
  rw [h]
  exact ⟨rfl, rfl⟩

/-- Witness for C9 at the concrete absolute path "/abs/a.nxs". -/
theorem c9_witness :
    (FileManager.reserve_name "run" "/abs/a.nxs" 9 fm0).1 =
      Except.error ("/abs/a.nxs" ++ " must be structured like a relative file path.") ∧
    (FileManager.reserve_name "run" "/abs/a.nxs" 9 fm0).2 = fm0 :=
  c9_absolute_path_usage_error "run" "/abs/a.nxs" 9 fm0 (by decide)

/-- Claim C10: a descriptor whose stream name contains "_fits_readying_"
returns with the serializer state unchanged (no group, no uid/name/channel
registration), and an event page whose descriptor uid is unregistered is
silently discarded (state unchanged: no data written, no ledger entry). -/
theorem c10_fits_readying_unregistered_and_discarded :
    (∀ (doc : Descriptor) (s : SState),
        strContains doc.name "_fits_readying_" = true →
        Serializer.descriptor doc s = Except.ok s) ∧
    (∀ (doc : EventPage) (s : SState),
        alookup doc.descriptor s.stream_groups = none →
        Serializer.event_page doc s = Except.ok s) := by
  constructor
  · intro doc s h
    unfold Serializer.descriptor
    rw [h]
    rfl
  · intro doc s h
    unfold Serializer.event_page
    rw [h]

/-- Witness for C10: the concrete pseudo-stream "x_fits_readying_0" and a
subsequent batch carrying its (unregistered) uid. -/
theorem c10_witness :
    Serializer.descriptor fitsDoc postStart = Except.ok postStart ∧
    Serializer.event_page fitsEv postStart = Except.ok postStart :=
  ⟨c10_fits_readying_unregistered_and_discarded.1 fitsDoc postStart (by decide),
   c10_fits_readying_unregistered_and_discarded.2 fitsEv postStart (by rfl)⟩

/-! ## Helper lemmas about the association-list and ledger primitives -/

theorem alookup_aset_self {β : Type} (k : String) (v : β) (l : List (String × β)) :
    alookup k (aset k v l) = some v := by
  induction l with
  | nil => simp [aset, alookup]
  | cons e r ih =>
    cases e with
    | mk k' v' =>
      by_cases h : k' = k
      · simp [aset, alookup, h]
      · simp [aset, alookup, h, ih]

theorem alookup_aset_ne {β : Type} (k k' : String) (v : β) (l : List (String × β))
    (h : k' ≠ k) : alookup k' (aset k v l) = alookup k' l := by
  induction l with
  | nil =>
    simp only [aset, alookup]
    rw [if_neg (fun hh => h (Eq.symm hh))]
  | cons e r ih =>
    cases e with
    | mk a b =>
      simp only [aset]
      by_cases ha : a = k
      · rw [if_pos ha]
        subst ha
        simp only [alookup]
        rw [if_neg (fun hh => h (Eq.symm hh)), if_neg (fun hh => h (Eq.symm hh))]
      · rw [if_neg ha]
        simp only [alookup]
        by_cases hb : a = k'
        · rw [if_pos hb, if_pos hb]
        · rw [if_neg hb, if_neg hb, ih]

theorem alookup_amod_ne {β : Type} (k k' : String) (f : β → β) (l : List (String × β))
    (h : k' ≠ k) : alookup k' (amod k f l) = alookup k' l := by
  induction l with
  | nil => simp [amod]
  | cons e r ih =>
    cases e with
    | mk a b =>
      simp only [amod]
      by_cases ha : a = k
      · rw [if_pos ha]
        subst ha
        simp only [alookup]
        rw [if_neg (fun hh => h (Eq.symm hh)), if_neg (fun hh => h (Eq.symm hh))]
      · rw [if_neg ha]
        simp only [alookup]
        by_cases hb : a = k'
        · rw [if_pos hb, if_pos hb]
        · rw [if_neg hb, if_neg hb, ih]

theorem alookup_amod_self {β : Type} (k : String) (f : β → β) (l : List (String × β)) :
    alookup k (amod k f l) = (alookup k l).map f := by
  induction l with
  | nil => simp [amod, alookup]
  | cons e r ih =>
    cases e with
    | mk a b =>
      by_cases ha : a = k
      · simp [amod, alookup, ha]
      · simp [amod, alookup, ha, ih]

theorem sumCounts_append (l : List (String × Nat)) (e : String × Nat) :
    sumCounts (l ++ [e]) = sumCounts l + e.2 := by
  simp [sumCounts]

theorem sumCounts_incLast (l : List (String × Nat)) (h : l ≠ []) :
    sumCounts (incLastCount l) = sumCounts l + 1 := by
  induction l with
  | nil => exact absurd rfl h
  | cons e r ih =>
    cases r with
    | nil =>
      cases e with
      | mk u c => simp [incLastCount, sumCounts]
    | cons e2 r2 =>
      have : sumCounts (incLastCount (e2 :: r2)) = sumCounts (e2 :: r2) + 1 :=
        ih (by simp)
      cases e with
      | mk u c =>
        simp [incLastCount, sumCounts] at this ⊢
        omega

theorem incLast_getLast? (l : List (String × Nat)) :
    (incLastCount l).getLast? = l.getLast?.map (fun e => (e.1, e.2 + 1)) := by
  induction l with
  | nil => simp [incLastCount]
  | cons e r ih =>
    cases r with
    | nil => cases e with | mk u c => simp [incLastCount]
    | cons e2 r2 =>
      cases e with
      | mk u c =>
        have hne : incLastCount (e2 :: r2) ≠ [] := by
          cases e2 with
          | mk a b => cases r2 <;> simp [incLastCount]
        simp [incLastCount, List.getLast?_cons_cons]
        rw [show ((u, c) :: incLastCount (e2 :: r2)).getLast? =
              (incLastCount (e2 :: r2)).getLast? from ?_]
        · exact ih
        · cases hh : incLastCount (e2 :: r2) with
          | nil => exact absurd hh hne
          | cons x xs => simp [List.getLast?_cons_cons]

theorem incLast_map_fst (l : List (String × Nat)) :
    (incLastCount l).map Prod.fst = l.map Prod.fst := by
  induction l with
  | nil => simp [incLastCount]
  | cons e r ih =>
    cases r with
    | nil => cases e with | mk u c => simp [incLastCount]
    | cons e2 r2 => cases e with | mk u c => simp [incLastCount, ih]

theorem adjOk_fst_congr (l l' : List (String × Nat))
    (h : l.map Prod.fst = l'.map Prod.fst) : adjOk l = adjOk l' := by
  induction l generalizing l' with
  | nil => cases l' <;> simp_all [adjOk]
  | cons e r ih =>
    cases l' with
    | nil => simp at h
    | cons e' r' =>
      simp at h
      cases r with
      | nil => cases r' <;> simp_all [adjOk]
      | cons e2 r2 =>
        cases r' with
        | nil => simp at h
        | cons e2' r2' =>
          have hr := ih (e2' :: r2') (by simp_all)
          simp at h
          simp [adjOk, hr, h.1, h.2.1]

theorem adjOk_append_last (l : List (String × Nat)) (u : String)
    (hok : adjOk l = true)
    (hlast : ∀ e, l.getLast? = some e → e.1 ≠ u) :
    adjOk (l ++ [(u, 1)]) = true := by
  induction l with
  | nil => simp [adjOk]
  | cons e r ih =>
    cases r with
    | nil =>
      have := hlast e (by simp)
      simp [adjOk, this]
    | cons e2 r2 =>
      have hok2 : adjOk (e2 :: r2) = true := by
        simp [adjOk] at hok
        exact hok.2
      have h1 : (e.1 ≠ e2.1 : Bool) = true := by
        simp [adjOk] at hok
        simp [hok.1]
      have := ih hok2 (fun x hx => hlast x (by rw [List.getLast?_cons_cons]; exact hx))
      simp [adjOk] at h1 this ⊢
      exact ⟨h1, this⟩

/-! ## State-preservation lemmas for the event-page pipeline -/

theorem markChannel_proj (u k : String) (s : SState) :
    (markChannel u k s).stream_counter = s.stream_counter ∧
    (markChannel u k s).current_stream = s.current_stream ∧
    (markChannel u k s).stream_groups = s.stream_groups ∧
    (markChannel u k s).channel_links = s.channel_links ∧
    (markChannel u k s).stream_metadata = s.stream_metadata ∧
    (markChannel u k s).channel_metadata = s.channel_metadata ∧
    (markChannel u k s).virt = s.virt ∧
    (markChannel u k s).start_time = s.start_time ∧
    (markChannel u k s).groups = s.groups := by
  unfold markChannel
  split <;> simp

theorem ledgerUpd_ok (uid : String) (s s' : SState)
    (h : ledgerUpd uid s = Except.ok s') :
    s'.groups = s.groups ∧ s'.stream_groups = s.stream_groups ∧
    s'.channels_in_streams = s.channels_in_streams ∧
    s'.stream_metadata = s.stream_metadata ∧
    s'.channel_metadata = s.channel_metadata ∧
    s'.channel_links = s.channel_links ∧ s'.virt = s.virt ∧
    s'.start_time = s.start_time ∧
    s'.current_stream = some uid ∧
    ((¬ s.current_stream = some uid ∧
        s'.stream_counter = s.stream_counter ++ [(uid, 1)]) ∨
     (s.current_stream = some uid ∧ s.stream_counter ≠ [] ∧
        s'.stream_counter = incLastCount s.stream_counter)) := by
  unfold ledgerUpd at h
  by_cases hc : s.current_stream = some uid
  · rw [if_neg (by simp [hc])] at h
    cases hl : s.stream_counter with
    | nil => rw [hl] at h; exact absurd h (by simp)
    | cons e r =>
      rw [hl] at h
      simp only [Except.ok.injEq] at h
      subst h
      refine ⟨rfl, rfl, rfl, rfl, rfl, rfl, rfl, rfl, by simp [hc], ?_⟩
      exact Or.inr ⟨hc, by simp [hl], by simp [hl]⟩
  · rw [if_pos (by simp [hc])] at h
    simp only [Except.ok.injEq] at h
    subst h
    exact ⟨rfl, rfl, rfl, rfl, rfl, rfl, rfl, rfl, rfl, Or.inl ⟨hc, rfl⟩⟩

theorem epKey_preserves (uid gid : String) (s : SState) (kv : String × List Row)
    (s' : SState) (h : epKey uid gid s kv = Except.ok s') :
    s'.stream_counter = s.stream_counter ∧
    s'.current_stream = s.current_stream ∧
    s'.stream_groups = s.stream_groups ∧
    s'.channel_links = s.channel_links ∧
    s'.stream_metadata = s.stream_metadata ∧
    s'.channel_metadata = s.channel_metadata ∧
    s'.virt = s.virt ∧
    s'.start_time = s.start_time := by
  unfold epKey at h
  have hm := markChannel_proj uid kv.1 s
  split at h
  · exact absurd h (by simp)
  · split at h
    · exact absurd h (by simp)
    · split at h
      · exact absurd h (by simp)
      · split at h
        · simp only [Except.ok.injEq] at h
          subst h
          simp [hm.1, hm.2.1, hm.2.2.1, hm.2.2.2.1, hm.2.2.2.2.1,
            hm.2.2.2.2.2.1, hm.2.2.2.2.2.2.1, hm.2.2.2.2.2.2.2.1]
        · exact absurd h (by simp)

theorem foldEpKey_preserves (uid gid : String) (kvs : List (String × List Row)) :
    ∀ (s s' : SState), kvs.foldlM (epKey uid gid) s = Except.ok s' →
    s'.stream_counter = s.stream_counter ∧
    s'.current_stream = s.current_stream ∧
    s'.stream_groups = s.stream_groups ∧
    s'.channel_links = s.channel_links ∧
    s'.stream_metadata = s.stream_metadata ∧
    s'.channel_metadata = s.channel_metadata ∧
    s'.virt = s.virt ∧
    s'.start_time = s.start_time := by
  induction kvs with
  | nil =>
    intro s s' h
    have hss : s = s' := by simpa [List.foldlM_nil, pure, Except.pure] using h
    subst hss
    exact ⟨rfl, rfl, rfl, rfl, rfl, rfl, rfl, rfl⟩
  | cons kv rest ih =>
    intro s s' h
    rw [List.foldlM_cons] at h
    cases h1 : epKey uid gid s kv with
    | error e => rw [h1] at h; exact absurd h (by simp [Bind.bind, Except.bind])
    | ok t =>
      rw [h1] at h
      have hstep := epKey_preserves uid gid s kv t h1
      have hrest := ih t s' (by simpa [Bind.bind, Except.bind] using h)
      exact ⟨hrest.1.trans hstep.1, hrest.2.1.trans hstep.2.1,
        hrest.2.2.1.trans hstep.2.2.1, hrest.2.2.2.1.trans hstep.2.2.2.1,
        hrest.2.2.2.2.1.trans hstep.2.2.2.2.1,
        hrest.2.2.2.2.2.1.trans hstep.2.2.2.2.2.1,
        hrest.2.2.2.2.2.2.1.trans hstep.2.2.2.2.2.2.1,
        hrest.2.2.2.2.2.2.2.trans hstep.2.2.2.2.2.2.2⟩

theorem event_page_effects (d : EventPage) (s s' : SState)
    (h : Serializer.event_page d s = Except.ok s') :
    s'.stream_groups = s.stream_groups ∧
    (countedBy s.stream_groups d = false →
      s'.stream_counter = s.stream_counter ∧ s'.current_stream = s.current_stream) ∧
    (countedBy s.stream_groups d = true →
      s'.current_stream = some d.descriptor ∧
      ((¬ s.current_stream = some d.descriptor ∧
         s'.stream_counter = s.stream_counter ++ [(d.descriptor, 1)]) ∨
       (s.current_stream = some d.descriptor ∧ s.stream_counter ≠ [] ∧
         s'.stream_counter = incLastCount s.stream_counter))) := by
  unfold Serializer.event_page at h
  cases halo : alookup d.descriptor s.stream_groups with
  | none =>
    simp only [halo] at h
    have hss : s = s' := by simpa using h
    subst hss
    refine ⟨rfl, fun _ => ⟨rfl, rfl⟩, fun hcb => ?_⟩
    rw [countedBy, halo] at hcb
    simp at hcb
  | some sgref =>
    cases sgref with
    | live =>
      simp only [halo] at h
      have hcbf : countedBy s.stream_groups d = false := by
        rw [countedBy, halo]
      split at h
      · exact absurd h (by simp)
      · split at h
        · exact absurd h (by simp)
        · simp only [Except.ok.injEq] at h
          subst h
          refine ⟨rfl, fun _ => ⟨rfl, rfl⟩, fun hcb => ?_⟩
          rw [hcbf] at hcb
          exact absurd hcb (by simp)
        · exact absurd h (by simp)
    | ref gid =>
      simp only [halo] at h
      have hcbt : countedBy s.stream_groups d = true := by
        rw [countedBy, halo]
      cases hl : ledgerUpd d.descriptor s with
      | error e =>
        simp only [hl] at h
        exact absurd h (by simp)
      | ok s1 =>
        simp only [hl] at h
        have hL := ledgerUpd_ok _ _ _ hl
        cases ht : d.time.head? with
        | none =>
          simp only [ht] at h
          exact absurd h (by simp)
        | some t0 =>
          simp only [ht] at h
          cases hg : alookup gid s1.groups with
          | none =>
            simp only [hg] at h
            exact absurd h (by simp)
          | some g =>
            simp only [hg] at h
            have hF := foldEpKey_preserves d.descriptor gid d.data _ _ h
            refine ⟨?_, fun hcb => ?_, fun _ => ?_⟩
            · rw [hF.2.2.1]
              simpa using hL.2.1
            · rw [hcbt] at hcb
              exact absurd hcb (by simp)
            · refine ⟨?_, ?_⟩
              · rw [hF.2.1]
                simpa using hL.2.2.2.2.2.2.2.2.1
              · have hsc : s'.stream_counter = s1.stream_counter := by
                  simpa using hF.1
                rcases hL.2.2.2.2.2.2.2.2.2 with hca | hcb2
                · exact Or.inl ⟨hca.1, by rw [hsc, hca.2]⟩
                · exact Or.inr ⟨hcb2.1, hcb2.2.1, by rw [hsc, hcb2.2.2]⟩

theorem runEvents_counter (docs : List EventPage) :
    ∀ (s s' : SState),
    adjOk s.stream_counter = true →
    (∀ e, s.stream_counter.getLast? = some e → s.current_stream = some e.1) →
    runEvents docs s = Except.ok s' →
    adjOk s'.stream_counter = true ∧
    (∀ e, s'.stream_counter.getLast? = some e → s'.current_stream = some e.1) ∧
    s'.stream_groups = s.stream_groups ∧
    sumCounts s'.stream_counter =
      sumCounts s.stream_counter + (docs.filter (countedBy s.stream_groups)).length := by
  induction docs with
  | nil =>
    intro s s' h1 h2 h
    have hss : s = s' := by
      simpa [runEvents, List.foldlM_nil, pure, Except.pure] using h
    subst hss
    exact ⟨h1, h2, rfl, by simp⟩
  | cons d rest ih =>
    intro s s' h1 h2 h
    rw [runEvents, List.foldlM_cons] at h
    cases hd : Serializer.event_page d s with
    | error e =>
      rw [hd] at h
      exact absurd h (by simp [Bind.bind, Except.bind])
    | ok t =>
      rw [hd] at h
      have hrest : runEvents rest t = Except.ok s' := by
        simpa [runEvents, Bind.bind, Except.bind] using h
      have hE := event_page_effects d s t hd
      cases hcb : countedBy s.stream_groups d with
      | false =>
        have hcf := hE.2.1 hcb
        have iht := ih t s' (by rw [hcf.1]; exact h1)
          (by rw [hcf.1, hcf.2]; exact h2) hrest
        refine ⟨iht.1, iht.2.1, iht.2.2.1.trans hE.1, ?_⟩
        rw [iht.2.2.2, hcf.1, hE.1]
        simp [List.filter_cons, hcb]
      | true =>
        have hct := hE.2.2 hcb
        have hadj : adjOk t.stream_counter = true := by
          rcases hct.2 with hca | hci
          · rw [hca.2]
            exact adjOk_append_last _ _ h1
              (fun e he => fun hh => hca.1 (by rw [← hh]; exact h2 e he))
          · rw [hci.2.2]
            rw [adjOk_fst_congr _ s.stream_counter (incLast_map_fst _)]
            exact h1
        have hlastinv : ∀ e, t.stream_counter.getLast? = some e →
            t.current_stream = some e.1 := by
          intro e he
          rcases hct.2 with hca | hci
          · rw [hca.2] at he
            simp [List.getLast?_append] at he
            rw [hct.1]
            cases he
            rfl
          · rw [hci.2.2, incLast_getLast?] at he
            cases hle : s.stream_counter.getLast? with
            | none => rw [hle] at he; simp at he
            | some e0 =>
              rw [hle] at he
              simp at he
              have h2e := h2 e0 hle
              have he01 : e0.1 = d.descriptor := by
                have hx := hci.1
                rw [h2e] at hx
                simpa using hx
              rw [hct.1]
              cases he
              simp [he01]
        have hsum : sumCounts t.stream_counter = sumCounts s.stream_counter + 1 := by
          rcases hct.2 with hca | hci
          · rw [hca.2, sumCounts_append]
          · rw [hci.2.2, sumCounts_incLast _ hci.2.1]
        have iht := ih t s' hadj hlastinv hrest
        refine ⟨iht.1, iht.2.1, iht.2.2.1.trans hE.1, ?_⟩
        rw [iht.2.2.2, hsum, hE.1]
        simp [List.filter_cons, hcb]
        omega

/-- Claim C4 (amended): after any successful run starting with an empty
ledger, the sum of the ledger counts equals the number of counted batches
— one per event-page call, not one per row — and no two consecutive ledger
entries name the same stream (a batch for the same stream as the previous
one always increments the last entry; any other batch appends). -/
theorem c4_amended_ledger_invariant (docs : List EventPage) (s s' : SState)
    (h0 : s.stream_counter = []) (h1 : s.current_stream = none)
    (h : runEvents docs s = Except.ok s') :
    sumCounts s'.stream_counter =
      (docs.filter (countedBy s.stream_groups)).length ∧
    adjOk s'.stream_counter = true := by
  have hr := runEvents_counter docs s s' (by rw [h0]; rfl)
    (by intro e he; rw [h0] at he; cases he) h
  refine ⟨?_, hr.1⟩
  rw [hr.2.2.2, h0]
  simp [sumCounts]

/-- Witness for C4's amended claim: two two-row batches for stream `u`
coalesce into the single ledger entry `("u", 2)`. -/
theorem c4_witness :
    sumCounts c4wState.stream_counter =
      (([ev4, ev4] : List EventPage).filter (countedBy postC4.stream_groups)).length ∧
    adjOk c4wState.stream_counter = true :=
  c4_amended_ledger_invariant [ev4, ev4] postC4 c4wState rfl rfl (by rfl)

/-- Claim C7 (amended): an array for a not-yet-created channel with a
positive row count but a zero trailing dimension is skipped without error
— no dataset is created, only a diagnostic is emitted — and, as the
concrete batch `ev7b` shows, the other channels of the same event-page
call are still written normally. -/
theorem c7_amended_trailing_zero_skipped :
    (∀ (chanMeta : List (String × List (String × String))) (meta : DataKeyMeta)
        (dsets : List (String × DSet)) (otherKeys : List String)
        (rows : List Row) (key : String),
        (ndTrailing rows).contains 0 = true →
        alookup key dsets = none → otherKeys.contains key = false →
        addData chanMeta meta dsets otherKeys rows key =
          Except.ok (dsets, ["Skipping " ++ key ++ " because of shape"])) ∧
    ((Serializer.event_page ev7b postC4).toOption.bind
        (fun s => alookup "data" s.groups)).map
      (fun (g : SGroup) => ((alookup "k" g.dsets).isSome,
        (alookup "k2" g.dsets).map DSet.rows)) = some (false, some [Row.scalar 1]) ∧
    (Serializer.event_page ev7b postC4).toOption.map SState.diags =
      some ["Skipping k because of shape"] := by
  refine ⟨?_, by rfl, by rfl⟩
  intro chanMeta meta dsets otherKeys rows key h0 hlk hok
  unfold addData
  rw [hlk]
  simp only [hok, Bool.false_eq_true, if_false, ite_false]
  rw [if_pos ?_]
  simp only [List.contains_cons]
  simp
  exact Or.inr (by simpa using h0)

/-- Witness for C7's amended claim at the concrete shape-(2,0) array. -/
theorem c7_witness :
    addData [] {} [] [] [Row.vec [], Row.vec []] "k" =
      Except.ok ([], ["Skipping " ++ "k" ++ " because of shape"]) :=
  c7_amended_trailing_zero_skipped.1 [] {} [] [] [Row.vec [], Row.vec []] "k"
    (by decide) rfl rfl

/-! ## Lemmas for the recursive metadata mapper -/

theorem alookup_append {β : Type} (k : String) (l1 l2 : List (String × β)) :
    alookup k (l1 ++ l2) =
      match alookup k l1 with
      | some v => some v
      | none => alookup k l2 := by
  induction l1 with
  | nil => simp [alookup]
  | cons e r ih =>
    cases e with
    | mk a b =>
      by_cases ha : a = k
      · simp [alookup, ha]
      · simp [alookup, ha, ih]

theorem suffixed_name_ne (key t : String) : key ++ "_" ++ t ≠ key := by
  intro h
  have hlen := congrArg String.length h
  simp only [String.length_append] at hlen
  have h1 : "_".length = 1 := rfl
  rw [h1] at hlen
  omega

/-- Induction principle for `MList` alone (the mutual eliminator has
multiple motives, which the `induction` tactic cannot use directly). -/
theorem mlist_induction (P : MList → Prop) (lnil : P MList.lnil)
    (lcons : ∀ v rest, P rest → P (MList.lcons v rest)) : ∀ l, P l := fun l =>
  match l with
  | MList.lnil => lnil
  | MList.lcons v rest => lcons v rest (mlist_induction P lnil lcons rest)

theorem allDict_firstNonDict (l : MList) (h : mlistAllDict l = false) :
    ∃ j, firstNonDict l = some j := by
  induction l using mlist_induction with
  | lnil => simp [mlistAllDict] at h
  | lcons v rest ih =>
    cases hv : v.isDict with
    | false => exact ⟨0, by simp [firstNonDict, hv]⟩
    | true =>
      have hr : mlistAllDict rest = false := by
        simp [mlistAllDict, hv] at h
        exact h
      obtain ⟨j, hj⟩ := ih hr
      exact ⟨j + 1, by simp [firstNonDict, hv, hj]⟩

theorem recourseListElems_allDict (l : MList) :
    ∀ (ch : List (String × HEntry)) (key : String) (i : Nat)
      (r : List (String × HEntry) × Bool),
    mlistAllDict l = true →
    recourseListElems ch key i l = Except.ok r →
    r.2 = false ∧ r.1.length = ch.length + (MList.toList l).length ∧
    alookup key r.1 = alookup key ch := by
  induction l using mlist_induction with
  | lnil =>
    intro ch key i r _ h
    simp only [recourseListElems, Except.ok.injEq] at h
    subst h
    simp [MList.toList]
  | lcons v rest ih =>
    intro ch key i r hall h
    cases v with
    | mdict sub =>
      simp only [recourseListElems] at h
      split at h
      · exact absurd h (by simp)
      · split at h
        · rename_i rr _
          have hallr : mlistAllDict rest = true := by
            simpa [mlistAllDict, MVal.isDict] using hall
          have := ih (ch ++ [(key ++ "_" ++ toString i, HEntry.node rr.1 rr.2)])
            key (i + 1) r hallr h
          refine ⟨this.1, ?_, ?_⟩
          · rw [this.2.1]
            simp [MList.toList]
            omega
          · rw [this.2.2, alookup_append]
            cases hk : alookup key ch with
            | some v => simp
            | none => simp [alookup, suffixed_name_ne key (toString i)]
        · exact absurd h (by simp)
    | mstr s => simp [mlistAllDict, MVal.isDict] at hall
    | mint n => simp [mlistAllDict, MVal.isDict] at hall
    | mnone => simp [mlistAllDict, MVal.isDict] at hall
    | mlist l2 => simp [mlistAllDict, MVal.isDict] at hall

theorem recourseListElems_firstNonDict (l : MList) :
    ∀ (ch : List (String × HEntry)) (key : String) (i j : Nat)
      (r : List (String × HEntry) × Bool),
    firstNonDict l = some j →
    recourseListElems ch key i l = Except.ok r →
    r.2 = true ∧ r.1.length = ch.length + j ∧
    alookup key r.1 = alookup key ch := by
  induction l using mlist_induction with
  | lnil =>
    intro ch key i j r hj _
    simp [firstNonDict] at hj
  | lcons v rest ih =>
    intro ch key i j r hj h
    cases hv : v.isDict with
    | false =>
      have hj0 : j = 0 := by
        simp [firstNonDict, hv] at hj
        omega
      subst hj0
      cases v with
      | mdict sub => simp [MVal.isDict] at hv
      | mstr s =>
        simp only [recourseListElems, Except.ok.injEq] at h
        subst h
        simp
      | mint n =>
        simp only [recourseListElems, Except.ok.injEq] at h
        subst h
        simp
      | mnone =>
        simp only [recourseListElems, Except.ok.injEq] at h
        subst h
        simp
      | mlist l2 =>
        simp only [recourseListElems, Except.ok.injEq] at h
        subst h
        simp
    | true =>
      cases v with
      | mdict sub =>
        obtain ⟨j0, hj0, hjj⟩ : ∃ j0, firstNonDict rest = some j0 ∧ j = j0 + 1 := by
          simp [firstNonDict, hv] at hj
          obtain ⟨a, ha, hb⟩ := hj
          exact ⟨a, ha, hb.symm⟩
        simp only [recourseListElems] at h
        split at h
        · exact absurd h (by simp)
        · split at h
          · rename_i rr _
            have := ih (ch ++ [(key ++ "_" ++ toString i, HEntry.node rr.1 rr.2)])
              key (i + 1) j0 r hj0 h
            refine ⟨this.1, ?_, ?_⟩
            · rw [this.2.1, hjj]
              simp
              omega
            · rw [this.2.2, alookup_append]
              cases hk : alookup key ch with
              | some v => simp
              | none => simp [alookup, suffixed_name_ne key (toString i)]
          · exact absurd h (by simp)
      | mstr s => simp [MVal.isDict] at hv
      | mint n => simp [MVal.isDict] at hv
      | mnone => simp [MVal.isDict] at hv
      | mlist l2 => simp [MVal.isDict] at hv

/-- Claim C8 (amended): for a key whose value is a sequence — if every
element is a mapping, one indexed child node is created per element (and
no leaf under the key); if some element is not a mapping, indexed child
nodes are still created for each mapping element before the first
non-mapping one, and then the whole sequence is materialized as exactly
one array leaf under the key, fixed-width text when any element is
textual, native when the value is a homogeneous numeric array, and a
string representation otherwise. -/
theorem c8_amended_sequence_mapping (key : String) (l : MList)
    (ch : List (String × HEntry)) (ats : List (String × MVal))
    (out : List (String × HEntry) × List (String × MVal))
    (h : recourseFields ch ats (MFields.fcons key (MVal.mlist l) MFields.fnil) =
      Except.ok out) :
    out.2 = ats ∧
    (mlistAllDict l = true →
      out.1.length = ch.length + (MList.toList l).length ∧
      alookup key out.1 = alookup key ch) ∧
    (mlistAllDict l = false →
      ∃ j, firstNonDict l = some j ∧
        out.1.length = ch.length + j + 1 ∧
        alookup key out.1 = some (listLeaf l) ∧
        (listLeaf l).isArrLeaf = true ∧
        (mlistAnyStr l = true → listLeaf l = HEntry.arrS (pyStrList l)) ∧
        (mlistAnyStr l = false → (natShapeList l).isSome = true →
          listLeaf l = HEntry.arrNative (MVal.mlist l)) ∧
        (mlistAnyStr l = false → (natShapeList l).isSome = false →
          listLeaf l = HEntry.strRepr (pyStr (MVal.mlist l)))) := by
  simp only [recourseFields] at h
  cases hle : recourseListElems ch key 0 l with
  | error e => rw [hle] at h; exact absurd h (by simp)
  | ok r =>
    obtain ⟨r1, r2⟩ := r
    rw [hle] at h
    dsimp only at h
    cases hnd : r2 with
    | false =>
      have hall : mlistAllDict l = true := by
        by_contra hc
        obtain ⟨j, hj⟩ := allDict_firstNonDict l (by simpa using hc)
        have := recourseListElems_firstNonDict l ch key 0 j (r1, r2) hj hle
        rw [hnd] at this
        exact absurd this.1 (by simp)
      have hall2 := recourseListElems_allDict l ch key 0 (r1, r2) hall hle
      rw [hnd] at h
      simp only [Bool.false_eq_true, if_false, ite_false, recourseFields,
        Except.ok.injEq] at h
      have hout : out = (r1, ats) := h.symm
      subst hout
      refine ⟨rfl, fun _ => ⟨hall2.2.1, hall2.2.2⟩, fun hc => ?_⟩
      rw [hall] at hc
      exact absurd hc (by simp)
    | true =>
      have hnall : mlistAllDict l = false := by
        by_contra hc
        have := recourseListElems_allDict l ch key 0 (r1, r2) (by simpa using hc) hle
        rw [hnd] at this
        exact absurd this.1 (by simp)
      obtain ⟨j, hj⟩ := allDict_firstNonDict l hnall
      have hfnd := recourseListElems_firstNonDict l ch key 0 j (r1, r2) hj hle
      rw [hnd] at h
      simp only [ite_true, if_true] at h
      cases hlk : (alookup key r1).isSome with
      | true => rw [hlk] at h; exact absurd h (by simp)
      | false =>
        rw [hlk] at h
        simp only [Bool.false_eq_true, if_false, ite_false, recourseFields,
          Except.ok.injEq] at h
        have hout : out = (r1 ++ [(key, listLeaf l)], ats) := h.symm
        subst hout
        refine ⟨rfl, fun hc => ?_, fun _ => ?_⟩
        · rw [hnall] at hc
          exact absurd hc (by simp)
        · refine ⟨j, hj, ?_, ?_, ?_, ?_, ?_, ?_⟩
          · simp [hfnd.2.1]
          · rw [alookup_append]
            have hnone : alookup key r1 = none := by
              cases hx : alookup key r1 with
              | none => rfl
              | some v => rw [hx] at hlk; simp at hlk
            rw [hnone]
            simp [alookup]
          · unfold listLeaf
            split
            · simp [HEntry.isArrLeaf]
            · split <;> simp [HEntry.isArrLeaf]
          · intro hs
            simp [listLeaf, hs]
          · intro hs hn
            simp [listLeaf, hs, hn]
          · intro hs hn
            simp [listLeaf, hs, hn]

/-- Witness for C8's amended claim at the sequence `[{}, 7]` under key
"w": one child node `w_0` for the mapping prefix, then the string-repr
array leaf `w`. -/
theorem c8_witness :
    ∃ j, firstNonDict c8wList = some j ∧
      ([("w_0", HEntry.node [] []), ("w", listLeaf c8wList)] :
          List (String × HEntry)).length =
        ([] : List (String × HEntry)).length + j + 1 ∧
      alookup "w" [("w_0", HEntry.node [] []), ("w", listLeaf c8wList)] =
        some (listLeaf c8wList) ∧
      (listLeaf c8wList).isArrLeaf = true ∧
      (mlistAnyStr c8wList = true → listLeaf c8wList = HEntry.arrS (pyStrList c8wList)) ∧
      (mlistAnyStr c8wList = false → (natShapeList c8wList).isSome = true →
        listLeaf c8wList = HEntry.arrNative (MVal.mlist c8wList)) ∧
      (mlistAnyStr c8wList = false → (natShapeList c8wList).isSome = false →
        listLeaf c8wList = HEntry.strRepr (pyStr (MVal.mlist c8wList))) :=
  (c8_amended_sequence_mapping "w" c8wList [] []
    ([("w_0", HEntry.node [] []), ("w", listLeaf c8wList)], []) (by rfl)).2.2 (by rfl)

/-! ## Small lemmas for the single-stream round-trip -/

theorem alookup_mem {β : Type} (k : String) (l : List (String × β)) (v : β)
    (h : alookup k l = some v) : (k, v) ∈ l := by
  induction l with
  | nil => simp [alookup] at h
  | cons e r ih =>
    cases e with
    | mk a b =>
      by_cases ha : a = k
      · subst ha
        simp [alookup] at h
        simp [h]
      · simp [alookup, ha] at h
        simp [ih h]

theorem nodup_alookup_all {β : Type} (k : String) (l : List (String × β)) (v : β)
    (hnd : (l.map Prod.fst).Nodup) (h : alookup k l = some v) :
    ∀ e ∈ l, e.1 = k → e.2 = v := by
  induction l with
  | nil => simp
  | cons e r ih =>
    cases e with
    | mk a b =>
      intro e' he' hk
      simp at hnd
      rcases List.mem_cons.mp he' with he | he
      · subst he
        by_cases ha : a = k
        · subst ha
          simp [alookup] at h
          exact h
        · exact absurd hk ha
      · by_cases ha : a = k
        · subst ha
          exfalso
          obtain ⟨x1, x2⟩ := e'
          simp at hk
          subst hk
          exact hnd.1 x2 he
        · simp [alookup, ha] at h
          exact ih hnd.2 h e' he hk

theorem aset_map_fst {β : Type} (k : String) (v : β) (l : List (String × β)) :
    (aset k v l).map Prod.fst =
      if (l.map Prod.fst).contains k then l.map Prod.fst
      else l.map Prod.fst ++ [k] := by
  induction l with
  | nil => simp [aset]
  | cons e r ih =>
    cases e with
    | mk a b =>
      by_cases ha : a = k
      · subst ha
        simp [aset, List.contains_cons]
      · have hak : (a == k) = false := by simpa using ha
        have hka : (k == a) = false := by simpa using (Ne.symm ha)
        simp only [aset, if_neg ha, List.map_cons, ih, List.contains_cons, hak, hka,
          Bool.false_or]
        by_cases hc : (r.map Prod.fst).contains k = true
        · rw [if_pos hc, if_pos hc]
        · rw [if_neg hc, if_neg hc]
          simp

theorem aset_keys_nodup {β : Type} (k : String) (v : β) (l : List (String × β))
    (h : (l.map Prod.fst).Nodup) : ((aset k v l).map Prod.fst).Nodup := by
  rw [aset_map_fst]
  by_cases hc : (l.map Prod.fst).contains k = true
  · rw [if_pos hc]
    exact h
  · rw [if_neg hc]
    have hk : k ∉ l.map Prod.fst := by simpa using hc
    simp [List.nodup_append, h, hk]

theorem sumFor_append (u : String) (l : List (String × Nat)) (e : String × Nat) :
    sumFor u (l ++ [e]) = sumFor u l + (if e.1 = u then e.2 else 0) := by
  induction l with
  | nil => simp [sumFor]
  | cons x r ih => simp [sumFor, ih]; omega

theorem sumFor_incLast (u : String) (l : List (String × Nat)) (e : String × Nat)
    (hl : l.getLast? = some e) :
    sumFor u (incLastCount l) =
      sumFor u l + (if e.1 = u then 1 else 0) := by
  induction l with
  | nil => simp at hl
  | cons x r ih =>
    cases r with
    | nil =>
      cases x with
      | mk a c =>
        simp at hl
        subst hl
        simp [incLastCount, sumFor]
        by_cases ha : a = u <;> simp [ha] <;> omega
    | cons x2 r2 =>
      rw [List.getLast?_cons_cons] at hl
      cases x with
      | mk a c =>
        have := ih hl
        simp [incLastCount, sumFor, this]
        omega

theorem castIfU_length (rows : List Row) : (castIfU rows).length = rows.length := by
  unfold castIfU
  split <;> simp

theorem ndTrailing_castIfU_single (r : Row) :
    ndTrailing (castIfU [r]) = ndTrailing [r] := by
  cases r <;> rfl

theorem addData_other (ch : String)
    (chanMeta : List (String × List (String × String))) (meta : DataKeyMeta)
    (dsets : List (String × DSet)) (otherKeys : List String)
    (rows : List Row) (key : String) (d : List (String × DSet)) (m : List String)
    (h : addData chanMeta meta dsets otherKeys rows key = Except.ok (d, m))
    (hne : key ≠ ch) : alookup ch d = alookup ch dsets := by
  unfold addData at h
  split at h
  · split at h
    · exact absurd h (by simp)
    · split at h
      · simp only [Except.ok.injEq, Prod.mk.injEq] at h
        rw [← h.1]
        exact alookup_amod_ne key ch _ dsets (Ne.symm hne)
      · exact absurd h (by simp)
  · split at h
    · exact absurd h (by simp)
    · split at h
      · simp only [Except.ok.injEq, Prod.mk.injEq] at h
        rw [← h.1]
      · simp only [Except.ok.injEq, Prod.mk.injEq] at h
        rw [← h.1]
        exact alookup_aset_ne key ch _ dsets (Ne.symm hne)

theorem epKeyCore_ch (ch : String) (meta : DataKeyMeta)
    (chanMeta : List (String × List (String × String))) (g : SGroup)
    (key : String) (rows : List Row) (g2 : SGroup) (msgs : List String)
    (h : epKeyCore meta chanMeta g key rows = Except.ok (g2, msgs))
    (hne : key ≠ ch) :
    alookup ch g2.dsets = alookup ch g.dsets ∧
    alookup ch g2.subs = alookup ch g.subs ∧ g2.time = g.time := by
  unfold epKeyCore at h
  split at h
  · exact absurd h (by simp)
  · split at h
    · -- namedtuple / variable-signal path
      split at h
      · exact absurd h (by simp)
      · split at h
        · split at h
          · simp only [Except.ok.injEq, Prod.mk.injEq] at h
            rw [← h.1]
            exact ⟨rfl, alookup_aset_ne key ch _ g.subs (Ne.symm hne), rfl⟩
          · exact absurd h (by simp)
        · split at h
          · exact absurd h (by simp)
          · split at h
            · simp only [Except.ok.injEq, Prod.mk.injEq] at h
              rw [← h.1]
              exact ⟨rfl, alookup_aset_ne key ch _ g.subs (Ne.symm hne), rfl⟩
            · exact absurd h (by simp)
        · exact absurd h (by simp)
    · split at h
      · rename_i dd mm _
        simp only [Except.ok.injEq, Prod.mk.injEq] at h
        rw [← h.1]
        refine ⟨?_, rfl, rfl⟩
        rename_i hadd
        exact addData_other ch _ _ _ _ _ _ _ _ hadd hne
      · exact absurd h (by simp)

theorem epKey_effects_ch (ch uid gid : String) (s : SState)
    (kv : String × List Row) (s' : SState)
    (h : epKey uid gid s kv = Except.ok s') (hne : kv.1 ≠ ch) :
    (∀ gu g, alookup gu s.groups = some g →
      ∃ g', alookup gu s'.groups = some g' ∧
        alookup ch g'.dsets = alookup ch g.dsets ∧
        alookup ch g'.subs = alookup ch g.subs ∧ g'.time = g.time) ∧
    alookup ch s'.channels_in_streams = alookup ch s.channels_in_streams ∧
    ((s.channels_in_streams.map Prod.fst).Nodup →
      (s'.channels_in_streams.map Prod.fst).Nodup) := by
  have hmg : (markChannel uid kv.1 s).groups = s.groups := (markChannel_proj uid kv.1 s).2.2.2.2.2.2.2.2
  have hcis : alookup ch (markChannel uid kv.1 s).channels_in_streams =
      alookup ch s.channels_in_streams := by
    unfold markChannel
    split
    · rfl
    · simp only
      exact alookup_aset_ne kv.1 ch _ s.channels_in_streams (Ne.symm hne)
  have hcisnd : (s.channels_in_streams.map Prod.fst).Nodup →
      ((markChannel uid kv.1 s).channels_in_streams.map Prod.fst).Nodup := by
    unfold markChannel
    split
    · exact id
    · simp only
      exact aset_keys_nodup kv.1 [uid] s.channels_in_streams
  unfold epKey at h
  split at h
  · exact absurd h (by simp)
  · split at h
    · exact absurd h (by simp)
    · split at h
      · exact absurd h (by simp)
      · rename_i oscr g hgeq
        split at h
        · rename_i escr g2 msgs hcore
          simp only [Except.ok.injEq] at h
          subst h
          refine ⟨?_, hcis, hcisnd⟩
          intro gu g0 hg0
          dsimp only
          rw [hmg]
          rw [hmg] at hgeq
          by_cases hgu : gu = gid
          · subst hgu
            have hg0g : g = g0 := by
              rw [hg0] at hgeq
              injection hgeq with hx
              exact hx.symm
            subst hg0g
            refine ⟨g2, ?_, ?_⟩
            · rw [alookup_amod_self, hg0]
              rfl
            · exact epKeyCore_ch ch _ _ _ _ _ _ _ hcore hne
          · exact ⟨g0, by rw [alookup_amod_ne gid gu _ s.groups hgu, hg0], rfl, rfl, rfl⟩
        · exact absurd h (by simp)

theorem foldEpKey_effects_ch (ch uid gid : String) (kvs : List (String × List Row))
    (hne : ∀ kv ∈ kvs, kv.1 ≠ ch) :
    ∀ (s s' : SState), kvs.foldlM (epKey uid gid) s = Except.ok s' →
    (∀ gu g, alookup gu s.groups = some g →
      ∃ g', alookup gu s'.groups = some g' ∧
        alookup ch g'.dsets = alookup ch g.dsets ∧
        alookup ch g'.subs = alookup ch g.subs ∧ g'.time = g.time) ∧
    alookup ch s'.channels_in_streams = alookup ch s.channels_in_streams ∧
    ((s.channels_in_streams.map Prod.fst).Nodup →
      (s'.channels_in_streams.map Prod.fst).Nodup) := by
  induction kvs with
  | nil =>
    intro s s' h
    have hss : s = s' := by simpa [List.foldlM_nil, pure, Except.pure] using h
    subst hss
    exact ⟨fun gu g hg => ⟨g, hg, rfl, rfl, rfl⟩, rfl, id⟩
  | cons kv rest ih =>
    intro s s' h
    rw [List.foldlM_cons] at h
    cases h1 : epKey uid gid s kv with
    | error e => rw [h1] at h; exact absurd h (by simp [Bind.bind, Except.bind])
    | ok t =>
      rw [h1] at h
      have hstep := epKey_effects_ch ch uid gid s kv t h1 (hne kv (by simp))
      have hrest := ih (fun x hx => hne x (by simp [hx])) t s'
        (by simpa [Bind.bind, Except.bind] using h)
      refine ⟨?_, hrest.2.1.trans hstep.2.1, fun hnd => hrest.2.2 (hstep.2.2 hnd)⟩
      intro gu g hg
      obtain ⟨g1, hg1, hp1, hp2, hp3⟩ := hstep.1 gu g hg
      obtain ⟨g2, hg2, hq1, hq2, hq3⟩ := hrest.1 gu g1 hg1
      exact ⟨g2, hg2, hq1.trans hp1, hq2.trans hp2, hq3.trans hp3⟩

theorem addData_self (chanMeta : List (String × List (String × String)))
    (meta : DataKeyMeta) (dsets : List (String × DSet)) (otherKeys : List String)
    (rows : List Row) (key : String) (dd : List (String × DSet)) (mm : List String)
    (h : addData chanMeta meta dsets otherKeys rows key = Except.ok (dd, mm)) :
    (alookup key dsets = none →
      (rows.length :: ndTrailing rows).contains 0 = false →
      ∃ ds, alookup key dd = some ds ∧ ds.rows.length = rows.length) ∧
    (∀ ds0, alookup key dsets = some ds0 →
      ∃ ds, alookup key dd = some ds ∧ ds.rows.length = ds0.rows.length + rows.length) := by
  unfold addData at h
  split at h
  · rename_i ds0 hds0
    split at h
    · exact absurd h (by simp)
    · split at h
      · simp only [Except.ok.injEq, Prod.mk.injEq] at h
        refine ⟨fun hn _ => (by rw [hn] at hds0; cases hds0), fun ds1 hds1 => ?_⟩
        rw [hds1] at hds0
        have hde : ds1 = ds0 := by injection hds0
        subst hde
        have hlk : alookup key dd = some { ds1 with rows := ds1.rows ++ rows } := by
          rw [← h.1, alookup_amod_self, hds1]
          rfl
        exact ⟨_, hlk, by simp⟩
      · exact absurd h (by simp)
  · rename_i hnone
    split at h
    · exact absurd h (by simp)
    · split at h
      · rename_i hguard
        simp only [Except.ok.injEq, Prod.mk.injEq] at h
        refine ⟨fun _ hg0 => ?_, fun ds1 hds1 => ?_⟩
        · rw [hg0] at hguard
          exact absurd hguard (by simp)
        · rw [hds1] at hnone
          cases hnone
      · simp only [Except.ok.injEq, Prod.mk.injEq] at h
        refine ⟨fun _ _ => ?_, fun ds1 hds1 => by rw [hds1] at hnone; cases hnone⟩
        have hlk : alookup key dd = some ⟨castIfU rows, ndTrailing (castIfU rows), meta.attrs ++ (alookup key chanMeta).getD []⟩ := by
          rw [← h.1, alookup_aset_self]
        exact ⟨_, hlk, by simp [castIfU_length]⟩

theorem epKeyCore_plain (meta : DataKeyMeta)
    (chanMeta : List (String × List (String × String))) (g : SGroup)
    (key : String) (r : Row) (g2 : SGroup) (msgs : List String)
    (h : epKeyCore meta chanMeta g key [r] = Except.ok (g2, msgs))
    (hnt : rowIsNtup r = false)
    (hvs : strEndsWith key "_variable_signal" = false) :
    g2.time = g.time ∧ g2.subs = g.subs ∧
    addData chanMeta meta g.dsets ((g.subs.map Prod.fst) ++ timeKeysOf g)
      (castIfU [r]) key = Except.ok (g2.dsets, msgs) := by
  unfold epKeyCore at h
  simp only [List.head?_cons, hnt, hvs, Bool.false_and, Bool.false_or,
    Bool.or_self, Bool.false_eq_true, if_false, ite_false] at h
  split at h
  · rename_i dd mm hadd
    simp only [Except.ok.injEq, Prod.mk.injEq] at h
    obtain ⟨hg2, hmsgs⟩ := h
    subst hmsgs
    rw [← hg2]
    exact ⟨rfl, rfl, hadd⟩
  · exact absurd h (by simp)

theorem epKey_ch_write (uid gid ch : String) (s s' : SState) (r : Row)
    (h : epKey uid gid s (ch, [r]) = Except.ok s')
    (hnt : rowIsNtup r = false)
    (hvs : strEndsWith ch "_variable_signal" = false)
    (g : SGroup) (hg : alookup gid s.groups = some g) :
    (∃ g', alookup gid s'.groups = some g' ∧ g'.time = g.time ∧
      g'.subs = g.subs ∧
      (alookup ch g.dsets = none → (ndTrailing [r]).contains 0 = false →
        ∃ ds, alookup ch g'.dsets = some ds ∧ ds.rows.length = 1) ∧
      (∀ ds0, alookup ch g.dsets = some ds0 →
        ∃ ds, alookup ch g'.dsets = some ds ∧ ds.rows.length = ds0.rows.length + 1)) ∧
    (∀ gu' g0, gu' ≠ gid → alookup gu' s.groups = some g0 →
      alookup gu' s'.groups = some g0) ∧
    (alookup ch s.channels_in_streams = none →
      alookup ch s'.channels_in_streams = some [uid]) ∧
    (∀ v, alookup ch s.channels_in_streams = some v →
      alookup ch s'.channels_in_streams = some v) ∧
    ((s.channels_in_streams.map Prod.fst).Nodup →
      (s'.channels_in_streams.map Prod.fst).Nodup) := by
  have hmg : (markChannel uid ch s).groups = s.groups :=
    (markChannel_proj uid ch s).2.2.2.2.2.2.2.2
  have hcisn : alookup ch s.channels_in_streams = none →
      alookup ch (markChannel uid ch s).channels_in_streams = some [uid] := by
    intro hn
    unfold markChannel
    rw [hn]
    simp only [Option.isSome_none, Bool.false_eq_true, if_false, ite_false]
    exact alookup_aset_self ch [uid] s.channels_in_streams
  have hciss : ∀ v, alookup ch s.channels_in_streams = some v →
      alookup ch (markChannel uid ch s).channels_in_streams = some v := by
    intro v hv
    unfold markChannel
    rw [hv]
    simp only [Option.isSome_some, if_true, ite_true]
    exact hv
  have hcisnd : (s.channels_in_streams.map Prod.fst).Nodup →
      ((markChannel uid ch s).channels_in_streams.map Prod.fst).Nodup := by
    unfold markChannel
    split
    · exact id
    · exact aset_keys_nodup ch [uid] s.channels_in_streams
  unfold epKey at h
  split at h
  · exact absurd h (by simp)
  · split at h
    · exact absurd h (by simp)
    · split at h
      · exact absurd h (by simp)
      · rename_i oscr gm hgeq
        split at h
        · rename_i escr g2 msgs hcore
          simp only [Except.ok.injEq] at h
          subst h
          rw [hmg, hg] at hgeq
          have hgm : gm = g := by injection hgeq with hx; exact hx.symm
          subst hgm
          have hplain := epKeyCore_plain _ _ _ _ _ _ _ hcore hnt hvs
          have hadd := addData_self _ _ _ _ _ _ _ _ hplain.2.2
          refine ⟨⟨g2, ?_, hplain.1, hplain.2.1, ?_, ?_⟩, ?_, hcisn, hciss, hcisnd⟩
          · dsimp only
            rw [hmg, alookup_amod_self, hg]
            rfl
          · intro hn h0
            have hguard : ((castIfU [r]).length :: ndTrailing (castIfU [r])).contains 0 = false := by
              rw [castIfU_length, ndTrailing_castIfU_single]
              simp
              simpa using h0
            obtain ⟨ds, hds, hlen⟩ := hadd.1 hn hguard
            rw [castIfU_length] at hlen
            exact ⟨ds, hds, by simpa using hlen⟩
          · intro ds0 hds0
            obtain ⟨ds, hds, hlen⟩ := hadd.2 ds0 hds0
            rw [castIfU_length] at hlen
            exact ⟨ds, hds, by simpa using hlen⟩
          · intro gu' g0 hne' hg0
            dsimp only
            rw [hmg, alookup_amod_ne gid gu' _ s.groups (fun hh => hne' hh), hg0]
        · exact absurd h (by simp)

theorem alookup_none_forall {β : Type} (k : String) (l : List (String × β))
    (h : alookup k l = none) : ∀ e ∈ l, e.1 ≠ k := by
  induction l with
  | nil => simp
  | cons e r ih =>
    cases e with
    | mk a b =>
      intro e' he'
      by_cases ha : a = k
      · rw [alookup, if_pos ha] at h
        cases h
      · rw [alookup, if_neg ha] at h
        rcases List.mem_cons.mp he' with he | he
        · subst he
          exact ha
        · exact ih h e' he

theorem alookup_split {β : Type} (k : String) (l : List (String × β)) (v : β)
    (h : alookup k l = some v) :
    ∃ l1 l2, l = l1 ++ (k, v) :: l2 ∧ ∀ e ∈ l1, e.1 ≠ k := by
  induction l with
  | nil => cases h
  | cons e r ih =>
    cases e with
    | mk a b =>
      by_cases ha : a = k
      · subst ha
        rw [alookup, if_pos rfl] at h
        have hbv : b = v := by injection h
        subst hbv
        exact ⟨[], r, by simp, by simp⟩
      · rw [alookup, if_neg ha] at h
        obtain ⟨l1, l2, heq, hne⟩ := ih h
        refine ⟨(a, b) :: l1, l2, by simp [heq], ?_⟩
        intro e' he'
        rcases List.mem_cons.mp he' with he | he
        · subst he
          exact ha
        · exact hne e' he

theorem nodup_mid_right {β : Type} (l1 l2 : List (String × β)) (k : String) (v : β)
    (h : (((l1 ++ (k, v) :: l2)).map Prod.fst).Nodup) : ∀ e ∈ l2, e.1 ≠ k := by
  rw [List.map_append, List.map_cons, List.nodup_append] at h
  have h2 : (k :: l2.map Prod.fst).Nodup := h.2.1
  have hk2 : k ∉ l2.map Prod.fst := (List.nodup_cons.mp h2).1
  intro e he hk
  exact hk2 (hk ▸ List.mem_map_of_mem Prod.fst he)

theorem groupWriteTime_props (t0 e0 : Int) (g : SGroup) :
    (groupWriteTime t0 e0 g).time.length = g.time.length + 1 ∧
    (groupWriteTime t0 e0 g).dsets = g.dsets ∧
    (groupWriteTime t0 e0 g).subs = g.subs := by
  unfold groupWriteTime
  by_cases hg : g.time.isEmpty
  · rw [if_pos hg]
    have : g.time = [] := by simpa [List.isEmpty_iff] using hg
    simp [this]
  · rw [if_neg hg]
    simp

theorem getLast?_of_ne_nil {α : Type} (l : List α) (h : l ≠ []) :
    ∃ e, l.getLast? = some e := by
  induction l with
  | nil => exact absurd rfl h
  | cons x xs ih =>
    cases xs with
    | nil => exact ⟨x, rfl⟩
    | cons y ys =>
      obtain ⟨e, he⟩ := ih (by simp)
      exact ⟨e, by rw [List.getLast?_cons_cons]; exact he⟩

theorem ledgerUpd_sumFor (u uid : String) (s s1 : SState)
    (h : ledgerUpd uid s = Except.ok s1)
    (hlast : ∀ e, s.stream_counter.getLast? = some e → s.current_stream = some e.1) :
    sumFor u s1.stream_counter =
      sumFor u s.stream_counter + (if uid = u then 1 else 0) ∧
    (∀ e, s1.stream_counter.getLast? = some e → s1.current_stream = some e.1) := by
  have hL := ledgerUpd_ok uid s s1 h
  have hcur : s1.current_stream = some uid := hL.2.2.2.2.2.2.2.2.1
  rcases hL.2.2.2.2.2.2.2.2.2 with hca | hci
  · constructor
    · rw [hca.2, sumFor_append]
    · intro e he
      rw [hca.2] at he
      simp [List.getLast?_append] at he
      rw [hcur]
      cases he
      rfl
  · obtain ⟨e0, he0⟩ := getLast?_of_ne_nil s.stream_counter hci.2.1
    have he0u : e0.1 = uid := by
      have hx := hlast e0 he0
      rw [hci.1] at hx
      injection hx with hx2
      exact hx2.symm
    constructor
    · rw [hci.2.2, sumFor_incLast u _ e0 he0, he0u]
    · intro e he
      rw [hci.2.2, incLast_getLast?, he0] at he
      simp at he
      rw [hcur]
      cases he
      simp [he0u]
theorem event_page_other_step (u gu ch : String) (SG : List (String × SGRef))
    (CL : List String) (d : EventPage) (s s' : SState) (k : Nat)
    (h : Serializer.event_page d s = Except.ok s')
    (hdu : d.descriptor ≠ u)
    (huniq : ∀ p ∈ SG, p.2 = SGRef.ref gu → p.1 = u)
    (hch : alookup ch d.data = none)
    (hinv : c5Inv u gu ch SG CL k s) :
    c5Inv u gu ch SG CL k s' := by
  obtain ⟨hSG, hCL, hndp, hsum, hlast, hcis, g, hg, htime, hsub, hds⟩ := hinv
  unfold Serializer.event_page at h
  rw [hSG] at h
  cases halo : alookup d.descriptor SG with
  | none =>
    simp only [halo] at h
    have hss : s = s' := by simpa using h
    subst hss
    exact ⟨hSG, hCL, hndp, hsum, hlast, hcis, g, hg, htime, hsub, hds⟩
  | some sgref =>
    cases sgref with
    | live =>
      simp only [halo] at h
      split at h
      · exact absurd h (by simp)
      · split at h
        · exact absurd h (by simp)
        · simp only [Except.ok.injEq] at h
          subst h
          exact ⟨rfl, hCL, hndp, hsum, hlast, hcis, g, hg, htime, hsub, hds⟩
        · exact absurd h (by simp)
    | ref gv =>
      have hgv : gv ≠ gu := by
        intro hh
        subst hh
        exact hdu (huniq (d.descriptor, SGRef.ref gv) (alookup_mem _ _ _ halo) rfl)
      simp only [halo] at h
      cases hl : ledgerUpd d.descriptor s with
      | error e =>
        simp only [hl] at h
        exact absurd h (by simp)
      | ok s1 =>
        simp only [hl] at h
        have hL := ledgerUpd_ok _ _ _ hl
        have hLs := ledgerUpd_sumFor u d.descriptor s s1 hl hlast
        cases ht : d.time.head? with
        | none =>
          simp only [ht] at h
          exact absurd h (by simp)
        | some t0 =>
          simp only [ht] at h
          cases hg1 : alookup gv s1.groups with
          | none =>
            simp only [hg1] at h
            exact absurd h (by simp)
          | some gv0 =>
            simp only [hg1] at h
            have hne2 := alookup_none_forall ch d.data hch
            have hFp := foldEpKey_preserves d.descriptor gv d.data _ _ h
            have hFc := foldEpKey_effects_ch ch d.descriptor gv d.data hne2 _ _ h
            have hgu2 : alookup gu
                (amod gv (groupWriteTime t0 (t0 - s1.start_time)) s1.groups) =
                some g := by
              rw [alookup_amod_ne gv gu _ s1.groups (Ne.symm hgv), hL.1, hg]
            obtain ⟨g2, hg2, hp1, hp2, hp3⟩ := hFc.1 gu g (by simpa using hgu2)
            refine ⟨?_, ?_, ?_, ?_, ?_, ?_, g2, hg2, ?_, ?_, ?_⟩
            · rw [hFp.2.2.1]
              simpa using hL.2.1.trans hSG
            · rw [hFp.2.2.2.1]
              simpa using hL.2.2.2.2.2.1.trans hCL
            · refine hFc.2.2 ?_
              have : s1.channels_in_streams = s.channels_in_streams := hL.2.2.1
              simpa [this] using hndp
            · rw [hFp.1]
              have : sumFor u s1.stream_counter = k := by
                rw [hLs.1, hsum]
                simp [fun hh : d.descriptor = u => hdu hh]
              simpa using this
            · intro e he
              rw [hFp.2.1]
              exact hLs.2 e (by rw [← hFp.1]; exact he)
            · rw [hFc.2.1]
              have : s1.channels_in_streams = s.channels_in_streams := hL.2.2.1
              simpa [this] using hcis
            · rw [hp3, htime]
            · rw [hp2, hsub]
            · by_cases hk : k = 0
              · subst hk
                simp only [if_pos rfl] at hds ⊢
                rw [hp1]
                exact hds
              · simp only [if_neg hk] at hds ⊢
                obtain ⟨ds, hds1, hds2⟩ := hds
                exact ⟨ds, by rw [hp1]; exact hds1, hds2⟩

theorem event_page_u_step (u gu ch : String) (SG : List (String × SGRef))
    (CL : List String) (d : EventPage) (s s' : SState) (k : Nat)
    (h : Serializer.event_page d s = Except.ok s')
    (hdu : d.descriptor = u)
    (hu : alookup u SG = some (SGRef.ref gu))
    (hgood : goodChRows ch d = true)
    (hnd : (d.data.map Prod.fst).Nodup)
    (hvs : strEndsWith ch "_variable_signal" = false)
    (hinv : c5Inv u gu ch SG CL k s) :
    c5Inv u gu ch SG CL (k + 1) s' := by
  obtain ⟨hSG, hCL, hndp, hsum, hlast, hcis, g, hg, htime, hsub, hds⟩ := hinv
  -- extract the single plain row carried for ch
  obtain ⟨r, hr, hnt, h0⟩ : ∃ r, alookup ch d.data = some [r] ∧
      rowIsNtup r = false ∧ (ndTrailing [r]).contains 0 = false := by
    unfold goodChRows at hgood
    split at hgood
    · rename_i r0 hr0
      simp at hgood
      exact ⟨r0, hr0, by simpa using hgood.1, by simpa using hgood.2⟩
    · exact absurd hgood (by simp)
  unfold Serializer.event_page at h
  rw [hSG, hdu] at h
  simp only [hu] at h
  cases hl : ledgerUpd u s with
  | error e =>
    simp only [hl] at h
    exact absurd h (by simp)
  | ok s1 =>
    simp only [hl] at h
    have hL := ledgerUpd_ok _ _ _ hl
    have hLs := ledgerUpd_sumFor u u s s1 hl hlast
    cases ht : d.time.head? with
    | none =>
      simp only [ht] at h
      exact absurd h (by simp)
    | some t0 =>
      simp only [ht] at h
      cases hg1 : alookup gu s1.groups with
      | none =>
        simp only [hg1] at h
        exact absurd h (by simp)
      | some gv0 =>
        simp only [hg1] at h
        have hg1g : alookup gu s1.groups = some g := by
          rw [hL.1, hg]
        -- the group after the time write
        have hgw : alookup gu
            (amod gu (groupWriteTime t0 (t0 - s1.start_time)) s1.groups) =
            some (groupWriteTime t0 (t0 - s1.start_time) g) := by
          rw [alookup_amod_self, hg1g]
          rfl
        have hWp := groupWriteTime_props t0 (t0 - s1.start_time) g
        -- split the data fold at the ch entry
        obtain ⟨l1, l2, hsplit, hne1⟩ := alookup_split ch d.data [r] hr
        have hne2 : ∀ e ∈ l2, e.1 ≠ ch := by
          rw [hsplit] at hnd
          exact nodup_mid_right l1 l2 ch [r] hnd
        rw [hsplit, List.foldlM_append] at h
        cases hA : l1.foldlM (epKey u gu)
            { s1 with groups := amod gu (groupWriteTime t0 (t0 - s1.start_time)) s1.groups } with
        | error e =>
          rw [hA] at h
          exact absurd h (by simp [Bind.bind, Except.bind])
        | ok sA =>
          rw [hA] at h
          have hstep1p := foldEpKey_preserves u gu l1 _ _ hA
          have hstep1c := foldEpKey_effects_ch ch u gu l1
            (fun kv hkv => hne1 kv hkv) _ _ hA
          obtain ⟨gA, hgA, hA1, hA2, hA3⟩ := hstep1c.1 gu _ hgw
          have hch : ((ch, [r]) :: l2).foldlM (epKey u gu) sA = Except.ok s' := by
            simpa [Bind.bind, Except.bind] using h
          rw [List.foldlM_cons] at hch
          cases hB : epKey u gu sA (ch, [r]) with
          | error e =>
            rw [hB] at hch
            exact absurd hch (by simp [Bind.bind, Except.bind])
          | ok sB =>
            rw [hB] at hch
            have hchrest : l2.foldlM (epKey u gu) sB = Except.ok s' := by
              simpa [Bind.bind, Except.bind] using hch
            have hWr := epKey_ch_write u gu ch sA sB r hB hnt hvs gA hgA
            have hstep2p := epKey_preserves u gu sA (ch, [r]) sB hB
            have hstep3p := foldEpKey_preserves u gu l2 _ _ hchrest
            have hstep3c := foldEpKey_effects_ch ch u gu l2 hne2 _ _ hchrest
            obtain ⟨gB, hgB, hB1, hB2, hB3, hB4⟩ := hWr.1
            obtain ⟨gC, hgC, hC1, hC2, hC3⟩ := hstep3c.1 gu gB hgB
            refine ⟨?_, ?_, ?_, ?_, ?_, ?_, gC, hgC, ?_, ?_, ?_⟩
            · rw [hstep3p.2.2.1, hstep2p.2.2.1, hstep1p.2.2.1]
              simpa using hL.2.1.trans hSG
            · rw [hstep3p.2.2.2.1, hstep2p.2.2.2.1, hstep1p.2.2.2.1]
              simpa using hL.2.2.2.2.2.1.trans hCL
            · refine hstep3c.2.2 (hWr.2.2.2.2 (hstep1c.2.2 ?_))
              have hx : s1.channels_in_streams = s.channels_in_streams := hL.2.2.1
              simpa [hx] using hndp
            · rw [hstep3p.1, hstep2p.1, hstep1p.1]
              have : sumFor u s1.stream_counter = k + 1 := by
                rw [hLs.1, hsum]
                simp
              simpa using this
            · intro e he
              rw [hstep3p.2.1, hstep2p.2.1, hstep1p.2.1]
              refine hLs.2 e ?_
              rw [← hstep1p.1, ← hstep2p.1, ← hstep3p.1]
              exact he
            · -- channels_in_streams at ch after the write is [u]
              rw [hstep3c.2.1]
              have hcis1 : alookup ch sA.channels_in_streams =
                  (if k = 0 then none else some [u]) := by
                rw [hstep1c.2.1]
                have hx : s1.channels_in_streams = s.channels_in_streams := hL.2.2.1
                simpa [hx] using hcis
              by_cases hk : k = 0
              · rw [if_pos hk] at hcis1
                rw [if_neg (by omega)]
                exact hWr.2.2.1 hcis1
              · rw [if_neg hk] at hcis1
                rw [if_neg (by omega)]
                exact hWr.2.2.2.1 [u] hcis1
            · rw [hC3, hB1, hA3, hWp.1, htime]
            · rw [hC2, hB2, hA2]
              simpa [hWp.2.2] using hsub
            · rw [if_neg (by omega)]
              by_cases hk : k = 0
              · subst hk
                rw [if_pos rfl] at hds
                have hnone : alookup ch gA.dsets = none := by
                  rw [hA1]
                  simpa [hWp.2.1] using hds
                obtain ⟨ds, hds1, hds2⟩ := hB3 hnone h0
                exact ⟨ds, by rw [hC1]; exact hds1, by omega⟩
              · rw [if_neg hk] at hds
                obtain ⟨ds0, hds01, hds02⟩ := hds
                have hsome : alookup ch gA.dsets = some ds0 := by
                  rw [hA1]
                  simpa [hWp.2.1] using hds01
                obtain ⟨ds, hds1, hds2⟩ := hB4 ds0 hsome
                exact ⟨ds, by rw [hC1]; exact hds1, by omega⟩

theorem c5_run_invariant (u gu ch : String) (SG : List (String × SGRef))
    (CL : List String)
    (hu : alookup u SG = some (SGRef.ref gu))
    (huniq : ∀ p ∈ SG, p.2 = SGRef.ref gu → p.1 = u)
    (hvs : strEndsWith ch "_variable_signal" = false)
    (docs : List EventPage) :
    ∀ (s : SState) (k : Nat) (s' : SState),
    (∀ d ∈ docs, d.descriptor = u →
      goodChRows ch d = true ∧ (d.data.map Prod.fst).Nodup) →
    (∀ d ∈ docs, d.descriptor ≠ u → alookup ch d.data = none) →
    c5Inv u gu ch SG CL k s →
    runEvents docs s = Except.ok s' →
    c5Inv u gu ch SG CL
      (k + (docs.filter (fun d => d.descriptor = u)).length) s' := by
  induction docs with
  | nil =>
    intro s k s' _ _ hinv h
    have hss : s = s' := by
      simpa [runEvents, List.foldlM_nil, pure, Except.pure] using h
    subst hss
    simpa using hinv
  | cons d rest ih =>
    intro s k s' hgood hother hinv h
    rw [runEvents, List.foldlM_cons] at h
    cases hd : Serializer.event_page d s with
    | error e =>
      rw [hd] at h
      exact absurd h (by simp [Bind.bind, Except.bind])
    | ok t =>
      rw [hd] at h
      have hrest : runEvents rest t = Except.ok s' := by
        simpa [runEvents, Bind.bind, Except.bind] using h
      by_cases hdu : d.descriptor = u
      · have hg := hgood d (by simp) hdu
        have ht := event_page_u_step u gu ch SG CL d s t k hd hdu hu hg.1 hg.2 hvs hinv
        have := ih t (k + 1) s'
          (fun x hx hxu => hgood x (by simp [hx]) hxu)
          (fun x hx hxu => hother x (by simp [hx]) hxu) ht hrest
        rw [List.filter_cons, if_pos (by simpa using hdu)]
        simpa [Nat.add_assoc, Nat.add_comm, Nat.add_left_comm] using this
      · have ht := event_page_other_step u gu ch SG CL d s t k hd hdu huniq
          (hother d (by simp) hdu) hinv
        have := ih t k s'
          (fun x hx hxu => hgood x (by simp [hx]) hxu)
          (fun x hx hxu => hother x (by simp [hx]) hxu) ht hrest
        rw [List.filter_cons, if_neg (by simpa using hdu)]
        exact this

theorem fillAt_step {α : Type} (l : List α) (k m c : Nat)
    (hl : l.length = k) (hmc : m + c ≤ k) :
    fillAt ((l.take m).map some ++ List.replicate (k - m) (none : Option α)) m
      ((l.drop m).take c)
    = (l.take (m + c)).map some ++ List.replicate (k - (m + c)) (none : Option α) := by
  have hm : m ≤ k := le_trans (Nat.le_add_right m c) hmc
  have hA : ((l.take m).map (some : α → Option α)).length = m := by
    simp [hl]
    omega
  have hseg : ((l.drop m).take c).length = c := by
    simp [hl]
    omega
  unfold fillAt
  rw [hseg, List.take_append_eq_append_take, List.drop_append_eq_append_drop, hA]
  rw [List.take_of_length_le (le_of_eq hA), Nat.sub_self, List.take_zero,
      List.drop_eq_nil_of_le (le_of_eq hA |>.trans (Nat.le_add_right m c)),
      List.drop_replicate]
  rw [List.take_add, List.map_append]
  have hkk : k - m - c = k - (m + c) := by omega
  simp [hkk]

theorem replay_fold (u : String) (rows : List Row) (times : List Int) (k : Nat)
    (hrk : rows.length = k) (htk : times.length = k) :
    ∀ (cnt : List (String × Nat)) (m : Nat) (acc : ReplayAcc),
    m + sumFor u cnt = k →
    acc.n = m →
    (alookup u acc.counts).getD 0 = m →
    acc.vals = (rows.take m).map some ++ List.replicate (k - m) none →
    acc.times = (times.take m).map some ++ List.replicate (k - m) none →
    ∃ acc2, cnt.foldlM (replayStep [u] [(u, (rows, times))] k) acc = Except.ok acc2 ∧
      acc2.vals = rows.map some ∧ acc2.times = times.map some := by
  intro cnt
  induction cnt with
  | nil =>
    intro m acc hsum hn hc hv ht
    have hmk : m = k := by simpa [sumFor] using hsum
    subst hmk
    refine ⟨acc, by simp [List.foldlM_nil, pure, Except.pure], ?_, ?_⟩
    · rw [hv, ← hrk]
      simp
    · rw [ht, ← htk]
      simp
  | cons e rest ih =>
    intro m acc hsum hn hc hv ht
    obtain ⟨a, c0⟩ := e
    rw [List.foldlM_cons]
    by_cases hau : a = u
    · subst hau
      have hmc : m + c0 ≤ k := by
        simp [sumFor] at hsum
        omega
      have hseg : ((rows.drop m).take c0).length = c0 := by
        simp [hrk]
        omega
      have hsegT : ((times.drop m).take c0).length = c0 := by
        simp [htk]
        omega
      have hsv : alookup a [(a, (rows, times))] = some (rows, times) := by
        simp [alookup]
      have hstep : replayStep [a] [(a, (rows, times))] k acc (a, c0) =
          Except.ok
            { n := acc.n + c0,
              counts := aset a (m + c0) acc.counts,
              vals := fillAt acc.vals acc.n ((rows.drop m).take c0),
              times := fillAt acc.times acc.n ((times.drop m).take c0) } := by
        unfold replayStep
        dsimp only
        rw [if_neg (by simp), hc]
        simp only [hsv]
        rw [if_pos]
        constructor
        · rw [hseg, hn]
          omega
        · rw [hsegT, hn]
          omega
      rw [hstep]
      have hres := ih (m + c0)
        { n := acc.n + c0,
          counts := aset a (m + c0) acc.counts,
          vals := fillAt acc.vals acc.n ((rows.drop m).take c0),
          times := fillAt acc.times acc.n ((times.drop m).take c0) }
        (by simp [sumFor] at hsum; omega)
        (by simp [hn])
        (by simp [alookup_aset_self])
        (by rw [hv, hn]; exact fillAt_step rows k m c0 hrk hmc)
        (by rw [ht, hn]; exact fillAt_step times k m c0 htk hmc)
      obtain ⟨acc2, hfold, hv2, ht2⟩ := hres
      exact ⟨acc2, by simpa [Bind.bind, Except.bind] using hfold, hv2, ht2⟩
    · have hstep : replayStep [u] [(u, (rows, times))] k acc (a, c0) = Except.ok acc := by
        unfold replayStep
        dsimp only
        rw [if_pos]
        simp [hau]
      rw [hstep]
      have hres := ih m acc (by simp [sumFor, hau] at hsum; omega) hn hc hv ht
      obtain ⟨acc2, hfold, hv2, ht2⟩ := hres
      exact ⟨acc2, by simpa [Bind.bind, Except.bind] using hfold, hv2, ht2⟩

theorem stopOne_ch (u gu ch : String) (s : SState) (g : SGroup) (ds : DSet) (k : Nat)
    (hcl : s.channel_links.contains ch = true)
    (hsg : alookup u s.stream_groups = some (SGRef.ref gu))
    (hg : alookup gu s.groups = some g)
    (htl : g.time.length = k) (hk : 0 < k)
    (hds : alookup ch g.dsets = some ds) (hdl : ds.rows.length = k)
    (hsum : sumFor u s.stream_counter = k) :
    stopOne s ch [u] = Except.ok
      { s with virt := aset ch { values := ds.rows.map some,
                                 times := g.time.map some } s.virt } := by
  have hne : g.time.isEmpty = false := by
    cases hgt : g.time with
    | nil =>
      rw [hgt] at htl
      simp at htl
      omega
    | cons x r => simp [hgt]
  have hgather : gather s ch [u] = Except.ok (k, [(u, (ds.rows, g.time))], some ds) := by
    unfold gather
    rw [List.foldlM_cons]
    have hstep : gatherStep s ch (0, [], none) u =
        Except.ok (k, [(u, (ds.rows, g.time))], some ds) := by
      unfold gatherStep
      simp only [hsg, hg, hne, hds]
      simp [htl, aset]
    rw [hstep]
    simp [List.foldlM_nil, Bind.bind, Except.bind, pure, Except.pure]
  have hreplay : replayAll s.stream_counter [u] [(u, (ds.rows, g.time))] k =
      Except.ok (ds.rows.map some, g.time.map some) := by
    obtain ⟨acc2, hfold, hv2, ht2⟩ := replay_fold u ds.rows g.time k hdl htl
      s.stream_counter 0
      { n := 0, counts := [], vals := List.replicate k none,
        times := List.replicate k none }
      (by simpa using hsum) rfl (by simp [alookup]) (by simp) (by simp)
    unfold replayAll
    simp only [hfold]
    rw [hv2, ht2]
  unfold stopOne
  rw [if_neg (by rw [hcl]; simp)]
  simp only [hgather, hreplay]

theorem stopOne_other (s t : SState) (c0 : String) (sd : List String)
    (h : stopOne s c0 sd = Except.ok t) :
    t.stream_groups = s.stream_groups ∧ t.groups = s.groups ∧
    t.stream_counter = s.stream_counter ∧ t.channel_links = s.channel_links ∧
    t.channels_in_streams = s.channels_in_streams ∧
    ∀ c, c ≠ c0 → alookup c t.virt = alookup c s.virt := by
  unfold stopOne at h
  split at h
  · have hst : s = t := by
      injection h
    subst hst
    exact ⟨rfl, rfl, rfl, rfl, rfl, fun c _ => rfl⟩
  · split at h
    · exact absurd h (by simp)
    · rename_i total srcs odset
      split at h
      · have hst : s = t := by
          injection h
        subst hst
        exact ⟨rfl, rfl, rfl, rfl, rfl, fun c _ => rfl⟩
      · split at h
        · exact absurd h (by simp)
        · rename_i vt hvt
          have hst : { s with virt := aset c0 { values := vt.1, times := vt.2 } s.virt } = t := by
            injection h with h2
          subst hst
          refine ⟨rfl, rfl, rfl, rfl, rfl, fun c hc => ?_⟩
          exact alookup_aset_ne c0 c _ s.virt hc

theorem stopFold_other (L : List (String × List String)) :
    ∀ (s t : SState),
    L.foldlM (fun st kv => stopOne st kv.1 kv.2) s = Except.ok t →
    t.stream_groups = s.stream_groups ∧ t.groups = s.groups ∧
    t.stream_counter = s.stream_counter ∧ t.channel_links = s.channel_links ∧
    t.channels_in_streams = s.channels_in_streams ∧
    ∀ c, c ∉ L.map Prod.fst → alookup c t.virt = alookup c s.virt := by
  induction L with
  | nil =>
    intro s t h
    have hst : s = t := by
      simpa [List.foldlM_nil, pure, Except.pure] using h
    subst hst
    exact ⟨rfl, rfl, rfl, rfl, rfl, fun c _ => rfl⟩
  | cons e rest ih =>
    intro s t h
    rw [List.foldlM_cons] at h
    cases hd : stopOne s e.1 e.2 with
    | error msg =>
      rw [hd] at h
      exact absurd h (by simp [Bind.bind, Except.bind])
    | ok t1 =>
      rw [hd] at h
      have h1 := stopOne_other s t1 e.1 e.2 hd
      have h2 := ih t1 t (by simpa [Bind.bind, Except.bind] using h)
      refine ⟨h2.1.trans h1.1, h2.2.1.trans h1.2.1, h2.2.2.1.trans h1.2.2.1,
        h2.2.2.2.1.trans h1.2.2.2.1, h2.2.2.2.2.1.trans h1.2.2.2.2.1, fun c hc => ?_⟩
      rw [List.map_cons, List.mem_cons] at hc
      push_neg at hc
      exact (h2.2.2.2.2.2 c hc.2).trans (h1.2.2.2.2.2 c hc.1)

theorem stop_virt_of_inv (u gu ch : String) (s : SState) (g : SGroup) (ds : DSet)
    (k : Nat) (t : Int) (s2 : SState)
    (hcl : s.channel_links.contains ch = true)
    (hsg : alookup u s.stream_groups = some (SGRef.ref gu))
    (hg : alookup gu s.groups = some g)
    (htl : g.time.length = k) (hk : 0 < k)
    (hds : alookup ch g.dsets = some ds) (hdl : ds.rows.length = k)
    (hsum : sumFor u s.stream_counter = k)
    (hnd : (s.channels_in_streams.map Prod.fst).Nodup)
    (hcis : alookup ch s.channels_in_streams = some [u])
    (hstop : Serializer.stop t s = Except.ok s2) :
    alookup ch s2.virt =
      some { values := ds.rows.map some, times := g.time.map some } := by
  unfold Serializer.stop at hstop
  obtain ⟨L1, L2, hsplit, hL1⟩ := alookup_split ch s.channels_in_streams [u] hcis
  have hL2 : ∀ e ∈ L2, e.1 ≠ ch := by
    rw [hsplit] at hnd
    exact nodup_mid_right L1 L2 ch [u] hnd
  rw [hsplit, List.foldlM_append] at hstop
  cases h1 : List.foldlM (fun st kv => stopOne st kv.1 kv.2)
      ({ s with channels_in_streams := L1 ++ (ch, [u]) :: L2,
                end_time := some t } : SState) L1 with
  | error msg =>
    rw [h1] at hstop
    exact absurd hstop (by simp [Bind.bind, Except.bind])
  | ok t1 =>
    rw [h1] at hstop
    have hp1 := stopFold_other L1 _ t1 h1
    have hstep : stopOne t1 ch [u] = Except.ok
        { t1 with virt := aset ch { values := ds.rows.map some,
                                    times := g.time.map some } t1.virt } := by
      refine stopOne_ch u gu ch t1 g ds k ?_ ?_ ?_ htl hk hds hdl ?_
      · rw [hp1.2.2.2.1]
        exact hcl
      · rw [hp1.1]
        exact hsg
      · rw [hp1.2.1]
        exact hg
      · rw [hp1.2.2.1]
        exact hsum
    have hstop1 : List.foldlM (fun st kv => stopOne st kv.1 kv.2) t1
        ((ch, [u]) :: L2) = Except.ok s2 := by
      simpa [Bind.bind, Except.bind] using hstop
    rw [List.foldlM_cons] at hstop1
    dsimp only at hstop1
    rw [hstep] at hstop1
    have hstop2 : List.foldlM (fun st kv => stopOne st kv.1 kv.2)
        { t1 with virt := aset ch { values := ds.rows.map some,
                                    times := g.time.map some } t1.virt } L2 = Except.ok s2 := by
      simpa [Bind.bind, Except.bind] using hstop1
    have hp2 := stopFold_other L2 _ s2 hstop2
    have hch2 : ch ∉ L2.map Prod.fst := by
      intro hmem
      obtain ⟨e, he, hee⟩ := List.mem_map.mp hmem
      exact hL2 e he hee
    rw [hp2.2.2.2.2.2 ch hch2]
    simp [alookup_aset_self]

/-- Claim C5 (corrected): for a channel `ch` whose rows arrive solely from
one stream `u` (group `gu`) in single-row batches - `ch` present with exactly
one plain row in every batch routed to `u`, and absent from every other
batch - the `VirtualChannelView` materialized at `stop` equals that stream's
raw channel dataset bit-for-bit and in order, and its timestamp view equals
the stream's `time` array.  The original claim, quantifying over arbitrary
event pages, fails because `time` grows by one per batch while the dataset
grows by the batch's full row count (`c5_roundtrip_fails_on_multirow_batch`). -/
theorem c5_single_stream_roundtrip
    (u gu ch : String) (SG : List (String × SGRef)) (CL : List String)
    (docs : List EventPage) (s0 : SState) (t : Int) (s1 s2 : SState)
    (hu : alookup u SG = some (SGRef.ref gu))
    (huniq : ∀ p ∈ SG, p.2 = SGRef.ref gu → p.1 = u)
    (hvs : strEndsWith ch "_variable_signal" = false)
    (hch : CL.contains ch = true)
    (hgood : ∀ d ∈ docs, d.descriptor = u →
      goodChRows ch d = true ∧ (d.data.map Prod.fst).Nodup)
    (hother : ∀ d ∈ docs, d.descriptor ≠ u → alookup ch d.data = none)
    (hinv : c5Inv u gu ch SG CL 0 s0)
    (hpos : 0 < (docs.filter (fun d => d.descriptor = u)).length)
    (hrun : runEvents docs s0 = Except.ok s1)
    (hstop : Serializer.stop t s1 = Except.ok s2) :
    ∃ g ds, alookup gu s1.groups = some g ∧ alookup ch g.dsets = some ds ∧
      ds.rows.length = g.time.length ∧
      alookup ch s2.virt =
        some { values := ds.rows.map some, times := g.time.map some } := by
  have hinv1 := c5_run_invariant u gu ch SG CL hu huniq hvs docs s0 0 s1
    hgood hother hinv hrun
  obtain ⟨hSG, hCL, hnd, hsum, hcur, hcis, g, hg, htl, hsub, hds⟩ := hinv1
  set k := (docs.filter (fun d => d.descriptor = u)).length with hkdef
  have hk0 : ¬ (0 + k = 0) := by omega
  rw [if_neg hk0] at hcis hds
  obtain ⟨ds, hds2, hdl⟩ := hds
  refine ⟨g, ds, hg, hds2, by omega, ?_⟩
  exact stop_virt_of_inv u gu ch s1 g ds (0 + k) t s2
    (by rw [hCL]; exact hch)
    (by rw [hSG]; exact hu)
    hg htl (by omega) hds2 hdl hsum hnd hcis hstop

theorem c5_witness :
    ∃ g ds, alookup "data" c5wS1.groups = some g ∧
      alookup "temp" g.dsets = some ds ∧
      ds.rows.length = g.time.length ∧
      alookup "temp" c5wS2.virt =
        some { values := ds.rows.map some, times := g.time.map some } :=
  c5_single_stream_roundtrip "u" "data" "temp" [("u", SGRef.ref "data")] ["temp"]
    [ev5a, ev5b] postC5 9 c5wS1 c5wS2
    rfl (by decide) rfl rfl (by decide) (by decide)
    ⟨rfl, rfl, by decide, rfl, (fun e he => nomatch he), rfl,
      ⟨SGroup.empty, rfl, rfl, rfl, rfl⟩⟩
    (by decide) (by rfl) (by rfl)
